import Mathlib

/-!
# FoamyGuy/web-editor: the device file-transfer client

A shallow embedding of `assets/js/common/web-file-transfer.js`
(`class FileTransferClient`).  Every `async` method becomes a state-passing
function: the state holds the one mutable field of the client
(`_allowedMethods`) together with a log of what the client did to the outside
world (requests handed to `fetch`, calls of the connectivity probe, console
warnings).  The outside world (the probe and the device's HTTP server) is a
parameter.
-/

namespace WebEditor

/-! ## JavaScript strings -/

/-- The characters `String.prototype.trim` removes: ECMAScript `WhiteSpace`
and `LineTerminator`. -/
def isTrimmable (c : Char) : Bool :=
  c.toNat == 0x09 || c.toNat == 0x0A || c.toNat == 0x0B || c.toNat == 0x0C ||
  c.toNat == 0x0D || c.toNat == 0x20 || c.toNat == 0xA0 || c.toNat == 0x1680 ||
  (0x2000 ≤ c.toNat && c.toNat ≤ 0x200A) || c.toNat == 0x2028 || c.toNat == 0x2029 ||
  c.toNat == 0x202F || c.toNat == 0x205F || c.toNat == 0x3000 || c.toNat == 0xFEFF

/-- `trim` on the characters of a string. -/
def trimChars (cs : List Char) : List Char :=
  ((cs.dropWhile isTrimmable).reverse.dropWhile isTrimmable).reverse

/-- `s.trim()`. -/
def trim (s : String) : String := ⟨trimChars s.data⟩

/-- `s.toUpperCase()`.  The letters `a`-`z` are mapped to `A`-`Z`; the client
only upper-cases HTTP verbs and the items of an HTTP header value, which are
byte strings, and compares the result with `OPTIONS`, `MOVE` and `DELETE`. -/
def toUpperCase (s : String) : String := ⟨s.data.map Char.toUpper⟩

/-- Pieces of a character list between occurrences of `sep` (never empty:
the pieces of the empty list are one empty piece). -/
def splitChars (sep : Char) : List Char → List (List Char)
  | [] => [[]]
  | c :: cs =>
    if c = sep then [] :: splitChars sep cs
    else
      match splitChars sep cs with
      | [] => [[c]]
      | piece :: pieces => (c :: piece) :: pieces

/-- `s.split(sep)` for a one-character separator (`split(/,/)` is
`split ','`). -/
def split (sep : Char) (s : String) : List String :=
  (splitChars sep s.data).map String.mk

/-- `!path.length || path.substr(-1) != "/"`: the path is empty or its last
character is not a slash. -/
def lacksTrailingSlash (path : String) : Bool :=
  path.data.length == 0 || path.data.getLast? != some '/'

/-- The path normalisation of `makeDir` and `listDir`:
`if (!path.length || path.substr(-1) != "/") path += "/"`. -/
def withTrailingSlash (path : String) : String :=
  if lacksTrailingSlash path then path ++ "/" else path

/-! ## Values that cross the network -/

/-- JavaScript numbers: the values of binary64 floating point.  A finite
value is held as the rational number it denotes; the sign of zero is not
modelled. -/
inductive JSNumber
  | finite (q : ℚ)
  | positiveInfinity
  | negativeInfinity
  | notANumber
deriving DecidableEq

/-- The number of binary digits of `n` when `fuel` is at least that number
(0 for 0). -/
def bitLengthAux : Nat → Nat → Nat
  | 0, _ => 0
  | fuel + 1, n => if n = 0 then 0 else bitLengthAux fuel (n / 2) + 1

/-- The number of binary digits of `n`. -/
def bitLength (n : Nat) : Nat := bitLengthAux n n

/-- The power `2 ^ e` for an integer exponent. -/
def twoToThe (e : ℤ) : ℚ :=
  if 0 ≤ e then ((2 ^ e.toNat : ℕ) : ℚ) else 1 / ((2 ^ (-e).toNat : ℕ) : ℚ)

/-- The exponent `e` with `2 ^ e ≤ q < 2 ^ (e + 1)`, for a positive `q`. -/
def floorLog2 (q : ℚ) : ℤ :=
  let e0 : ℤ := (bitLength q.num.natAbs : ℤ) - (bitLength q.den : ℤ)
  if twoToThe e0 ≤ q then e0 else e0 - 1

/-- The integer nearest to `x`, the even one of the two when `x` lies halfway
between two integers. -/
def roundHalfEven (x : ℚ) : ℤ :=
  let f := ⌊x⌋
  let r := x - f
  if r < 1 / 2 then f
  else if 1 / 2 < r then f + 1
  else if f % 2 = 0 then f else f + 1

/-- The Number value for a real number `q` (IEEE 754 round to nearest, ties to
even, in binary64): the significand has 53 bits, the exponent is at least
-1022 (below that the values are subnormal), and a magnitude that rounds to
`2 ^ 1024` or more becomes an infinity. -/
def roundBinary64 (q : ℚ) : JSNumber :=
  if q = 0 then JSNumber.finite 0
  else
    let e := max (floorLog2 |q|) (-1022)
    let quantum := twoToThe (e - 52)
    let r := (roundHalfEven (|q| / quantum) : ℚ) * quantum
    if twoToThe 1024 ≤ r then
      if 0 < q then JSNumber.positiveInfinity else JSNumber.negativeInfinity
    else JSNumber.finite (if 0 < q then r else -r)

/-- The operator `/` on numbers: the exact quotient rounded to binary64, with
the IEEE 754 rules for zero divisors, infinities and NaN (a zero is taken as
`+0`). -/
def JSNumber.divide : JSNumber → JSNumber → JSNumber
  | JSNumber.notANumber, _ => JSNumber.notANumber
  | _, JSNumber.notANumber => JSNumber.notANumber
  | JSNumber.finite a, JSNumber.finite b =>
    if b = 0 then
      if a = 0 then JSNumber.notANumber
      else if 0 < a then JSNumber.positiveInfinity else JSNumber.negativeInfinity
    else roundBinary64 (a / b)
  | JSNumber.finite _, JSNumber.positiveInfinity => JSNumber.finite 0
  | JSNumber.finite _, JSNumber.negativeInfinity => JSNumber.finite 0
  | JSNumber.positiveInfinity, JSNumber.finite b =>
    if 0 ≤ b then JSNumber.positiveInfinity else JSNumber.negativeInfinity
  | JSNumber.negativeInfinity, JSNumber.finite b =>
    if 0 ≤ b then JSNumber.negativeInfinity else JSNumber.positiveInfinity
  | _, _ => JSNumber.notANumber

/-- A value stored in the `headers` object of a request. -/
inductive HeaderValue
  | text (s : String)
  | number (n : Nat)
deriving DecidableEq, Repr

/-- The options object handed to `fetch`. -/
structure FetchOptions where
  credentials : Option String
  method : Option String
  body : Option String
  headers : List (String × HeaderValue)
deriving DecidableEq, Repr

/-- The options a method of the client passes to `_fetch` (`{}` by default). -/
def noOptions : FetchOptions :=
  { credentials := none, method := none, body := none, headers := [] }

/-- One call `fetch(new URL(location, base), options)`. -/
structure Request where
  location : String
  base : String
  options : FetchOptions
deriving DecidableEq, Repr

/-- An element of the JSON array the device returns for a directory, as
written in the response body: the numbers are the exact values of the JSON
numeric literals. -/
structure ServerEntry where
  name : String
  directory : Bool
  file_size : ℚ
  modified_ns : ℚ
deriving DecidableEq

/-- An element of the array `response.json()` resolves to: the numbers are
JavaScript numbers. -/
structure ParsedEntry where
  name : String
  directory : Bool
  file_size : JSNumber
  modified_ns : JSNumber
deriving DecidableEq

/-- The number a JSON numeric literal of exact value `q` parses to: the
Number value for `q`. -/
def parseNumber (q : ℚ) : JSNumber := roundBinary64 q

/-- The object a JSON entry parses to. -/
def parseEntry (entry : ServerEntry) : ParsedEntry :=
  { name := entry.name, directory := entry.directory,
    file_size := parseNumber entry.file_size, modified_ns := parseNumber entry.modified_ns }

/-- A completed HTTP response.  `body` is what `text()` and `blob()` read,
`json` is the array that `body` holds as JSON text (`none`: the body is not
JSON, and `json()` rejects with a `SyntaxError`). -/
structure Response where
  status : Nat
  statusText : String
  headers : List (String × String)
  body : String
  json : Option (List ServerEntry)
deriving DecidableEq

/-- `await response.json()`: the parsed array (`none`: the promise rejects
with a `SyntaxError`). -/
def Response.parsedJson (r : Response) : Option (List ParsedEntry) :=
  r.json.map (List.map parseEntry)

/-- `response.ok`: the status is in the range 200-299. -/
def Response.ok (r : Response) : Bool := 200 ≤ r.status && r.status ≤ 299

/-- `response.headers.get(name)`: header names match case-insensitively;
`none` is JavaScript `null`. -/
def Response.headersGet (r : Response) (name : String) : Option String :=
  (r.headers.find? (fun h => toUpperCase h.1 == toUpperCase name)).map Prod.snd

/-- What `fetch` does with a request: it rejects (transport failure) or
resolves to a response. -/
inductive FetchOutcome
  | networkError
  | response (r : Response)
deriving DecidableEq

/-- Exceptions thrown by the client. -/
inductive JSError
  | error (message : String)
  | protocolError (message : String)
  | typeError (message : String)
  | syntaxError
deriving DecidableEq, Repr

/-! ## The client and its environment -/

/-- The immutable part of a client (`hostname`, `connectionStatus`) and the
world it talks to.  `connectionStatus k` is the answer of the probe at its
`k`-th call, `fetch k req` the outcome of `req` when it is the `k`-th request
sent (both counted from 0), `urlParses location base` tells whether
`new URL(location, base)` succeeds. -/
structure World where
  hostname : String
  connectionStatus : Nat → Bool
  urlParses : String → String → Bool
  fetch : Nat → Request → FetchOutcome

/-- The mutable part: `_allowedMethods` (`none` is `null`), and the log of
effects: requests handed to `fetch` (oldest first), number of probe calls,
console warnings. -/
structure State where
  allowedMethods : Option (List String)
  sent : List Request
  probes : Nat
  warnings : List String
deriving DecidableEq

/-- The state right after `new FileTransferClient(hostname, cb)`. -/
def State.fresh : State :=
  { allowedMethods := none, sent := [], probes := 0, warnings := [] }

/-- An awaited `async` computation: it ends with a value or a thrown
exception, and a new state either way. -/
def Async (α : Type) : Type := State → Except JSError α × State

/-- Sequencing of awaited computations: an exception ends the sequence. -/
def Async.bind {α β : Type} (m : Async α) (f : α → Async β) : Async β :=
  fun s =>
    match m s with
    | (Except.ok a, s1) => f a s1
    | (Except.error e, s1) => (Except.error e, s1)

instance : Monad Async where
  pure a := fun s => (Except.ok a, s)
  bind := Async.bind

/-- `throw e`. -/
def throwJS {α : Type} (e : JSError) : Async α := fun s => (Except.error e, s)

/-- `this.connectionStatus()`. -/
def connectionStatus (w : World) : Async Bool :=
  fun s => (Except.ok (w.connectionStatus s.probes), { s with probes := s.probes + 1 })

/-- `console.warn(message)`. -/
def consoleWarn (message : String) : Async Unit :=
  fun s => (Except.ok (), { s with warnings := s.warnings ++ [message] })

/-- The platform call `fetch(url, options)` once the URL exists: the request
is logged and the world answers. -/
def platformFetch (w : World) (req : Request) : Async FetchOutcome :=
  fun s => (Except.ok (w.fetch s.sent.length req), { s with sent := s.sent ++ [req] })

/-- A JavaScript value that may be searched for in an array of strings. -/
inductive JSValue
  | string (s : String)
  | function (name : String)
deriving DecidableEq, Repr

/-- `array.includes(v)` on an array of strings: strict equality, so a
function object is never found. -/
def includes (xs : List String) : JSValue → Bool
  | JSValue.string s => xs.contains s
  | JSValue.function _ => false

/-- The object an `async` method returns to a caller that does not `await`
it. -/
structure Promise (α : Type) where
  body : Async α

/-- Truthiness of a promise: every object is truthy. -/
def Promise.toBoolean {α : Type} (_p : Promise α) : Bool := true

/-- Truthiness of an optional string (`undefined` and `""` are falsy). -/
def truthy : Option String → Bool
  | none => false
  | some s => s.data.length != 0

/-- Read the field `this._allowedMethods`. -/
def getAllowedMethods : Async (Option (List String)) :=
  fun s => (Except.ok s.allowedMethods, s)

/-- Assign the field `this._allowedMethods`. -/
def setAllowedMethods (ms : List String) : Async Unit :=
  fun s => (Except.ok (), { s with allowedMethods := some ms })

/-! ## `class FileTransferClient` -/

/-- The body of `async _isMethodAllowed(method)`.  It searches the array for
`method.toUpperCase`, the function, not for its result. -/
def _isMethodAllowed (_method : String) : Async Bool := do
  match ← getAllowedMethods with
  | some ms => pure (includes ms (JSValue.function "toUpperCase"))
  | none => pure false

/-- The message of the error for an unreachable host. -/
def hostNotFound (w : World) : String := "Host '" ++ w.hostname ++ "' not found."

/-- `async _fetch(location, options = {})`.  The call
`this._isMethodAllowed(...)` is not awaited, so the condition negates a
promise.  The `try` block covers both `new URL(...)` and the awaited
`fetch`. -/
def _fetch (w : World) (location : String) (options : FetchOptions) : Async Response := do
  let fetchOptions : FetchOptions :=
    { options with credentials := some (options.credentials.getD "include") }
  match fetchOptions.method with
  | some method =>
    if truthy (some method) && toUpperCase method != "OPTIONS" then
      if !(Promise.toBoolean (Promise.mk (_isMethodAllowed method))) then
        if toUpperCase method == "MOVE" then
          consoleWarn "Please upgrade to the latest version of CircuitPython. Allowing MOVE for now."
        else
          throwJS (JSError.protocolError (method ++ " is not allowed."))
  | none => pure ()
  if !w.urlParses location ("http://" ++ w.hostname) then
    throwJS (JSError.protocolError (hostNotFound w))
  let outcome ← platformFetch w
    { location := location, base := "http://" ++ w.hostname, options := fetchOptions }
  match outcome with
  | FetchOutcome.networkError => throwJS (JSError.protocolError (hostNotFound w))
  | FetchOutcome.response response =>
    if !response.ok then
      throwJS (JSError.protocolError response.statusText)
    else
      pure response

/-- The items of an `Access-Control-Allow-Methods` value:
`h.split(/,/).map(method => method.trim().toUpperCase())`. -/
def parseAllowedMethods (h : String) : List String :=
  (split ',' h).map (fun method => toUpperCase (trim method))

/-- `async _checkConnection()`.  A response without the header makes
`headers.get(...)` null, and `.split` on it throws a `TypeError`. -/
def _checkConnection (w : World) : Async Unit := do
  let connected ← connectionStatus w
  if !connected && (← getAllowedMethods).isSome then
    throwJS (JSError.error "Unable to perform file operation. Not Connected.")
  if (← getAllowedMethods).isNone then
    let status ← _fetch w "/fs/" { noOptions with method := some "OPTIONS" }
    match status.headersGet "Access-Control-Allow-Methods" with
    | none => throwJS (JSError.typeError "Cannot read properties of null (reading 'split')")
    | some h => setAllowedMethods (parseAllowedMethods h)

/-- `async readOnly()`. -/
def readOnly (w : World) : Async Bool := do
  _checkConnection w
  match ← getAllowedMethods with
  | some ms => pure (!includes ms (JSValue.string "DELETE"))
  | none => throwJS (JSError.typeError "Cannot read properties of null (reading 'includes')")

/-- What `readFile` resolves to: text, a blob, or `null`. -/
inductive FileContent
  | text (s : String)
  | blob (data : String)
  | null
deriving DecidableEq, Repr

/-- `async _readFile(path, raw, rootDir)`. -/
def _readFile (w : World) (path : String) (raw : Bool) (rootDir : String) :
    Async FileContent := do
  _checkConnection w
  let response ← _fetch w (rootDir ++ path) noOptions
  if response.ok then
    pure (if raw then FileContent.blob response.body else FileContent.text response.body)
  else
    pure (if raw then FileContent.null else FileContent.text "")

/-- `async readFile(path, raw = false)`. -/
def readFile (w : World) (path : String) (raw : Bool) : Async FileContent :=
  _readFile w path raw "/fs"

/-- `async _checkWritable()`. -/
def _checkWritable (w : World) : Async Unit := do
  if ← readOnly w then
    throwJS (JSError.error "File System is Read Only. Try disabling the USB Drive.")

/-- `async writeFile(path, offset, contents, modificationTime, raw = false)`. -/
def writeFile (w : World) (path : String) (_offset : Nat) (contents : String)
    (modificationTime : Nat) (raw : Bool) : Async Unit := do
  _checkConnection w
  _checkWritable w
  let options : FetchOptions :=
    { credentials := none, method := some "PUT", body := some contents,
      headers := [("X-Timestamp", HeaderValue.number modificationTime)] }
  let options : FetchOptions :=
    if raw then
      { options with
        headers := options.headers ++ [("Content-Type", HeaderValue.text "application/octet-stream")] }
    else options
  let _ ← _fetch w ("/fs" ++ path) options
  pure ()

/-- `async makeDir(path, modificationTime)`. -/
def makeDir (w : World) (path : String) (modificationTime : Nat) : Async Bool := do
  _checkConnection w
  _checkWritable w
  let path := withTrailingSlash path
  let options : FetchOptions :=
    { credentials := none, method := some "PUT", body := none,
      headers := [("X-Timestamp", HeaderValue.number modificationTime)] }
  let response ← _fetch w ("/fs" ++ path) options
  pure response.ok

/-- An element of the result of `listDir`. -/
structure DirEntry where
  path : String
  isDir : Bool
  fileSize : JSNumber
  fileDate : JSNumber
deriving DecidableEq

/-- The object `listDir` pushes for one element of the response:
`fileDate: Number(result.modified_ns / 1000000)`, where `/` is the division
of numbers and `Number` of a number is that number. -/
def toDirEntry (result : ParsedEntry) : DirEntry :=
  { path := result.name, isDir := result.directory, fileSize := result.file_size,
    fileDate := JSNumber.divide result.modified_ns (JSNumber.finite 1000000) }

/-- `async listDir(path)`. -/
def listDir (w : World) (path : String) : Async (List DirEntry) := do
  _checkConnection w
  let path := withTrailingSlash path
  let response ← _fetch w ("/fs" ++ path)
    { noOptions with headers := [("Accept", HeaderValue.text "application/json")] }
  match response.parsedJson with
  | none => throwJS JSError.syntaxError
  | some results => pure (results.map toDirEntry)

/-- `async delete(path)`. -/
def delete (w : World) (path : String) : Async Bool := do
  _checkConnection w
  _checkWritable w
  let response ← _fetch w ("/fs" ++ path) { noOptions with method := some "DELETE" }
  pure response.ok

/-- `async move(oldPath, newPath)`. -/
def move (w : World) (oldPath newPath : String) : Async Bool := do
  _checkConnection w
  _checkWritable w
  let options : FetchOptions :=
    { credentials := none, method := some "MOVE", body := none,
      headers := [("X-Destination", HeaderValue.text ("/fs" ++ newPath))] }
  let response ← _fetch w ("/fs" ++ oldPath) options
  pure response.ok

/-- The tail of `versionInfo` and `otherDevices`:
`if (!response) return null; return await response.json();` where `response`
is what `_readFile` resolved to.  A blob and a non-empty string are truthy and
have no `json` method, so the call throws a `TypeError`. -/
def parsedOrNull : FileContent → Async (Option String)
  | FileContent.null => pure none
  | FileContent.text s =>
    if s.data.length == 0 then pure none
    else throwJS (JSError.typeError "response.json is not a function")
  | FileContent.blob _ => throwJS (JSError.typeError "response.json is not a function")

/-- `async versionInfo()`. -/
def versionInfo (w : World) : Async (Option String) := do
  let response ← _readFile w "/version.json" true "/cp"
  parsedOrNull response

/-- `async otherDevices()`. -/
def otherDevices (w : World) : Async (Option String) := do
  let response ← _readFile w "/devices.json" true "/cp"
  parsedOrNull response

/-! ## Sequences of operations -/

/-- A call of a public instance method. -/
inductive Call
  | readFile (path : String) (raw : Bool)
  | writeFile (path : String) (offset : Nat) (contents : String) (modificationTime : Nat)
      (raw : Bool)
  | makeDir (path : String) (modificationTime : Nat)
  | listDir (path : String)
  | delete (path : String)
  | move (oldPath newPath : String)
  | readOnly
  | versionInfo
  | otherDevices

/-- What a call resolves to. -/
inductive Value
  | content (c : FileContent)
  | undefined
  | bool (b : Bool)
  | entries (es : List DirEntry)
  | parsed (v : Option String)
deriving DecidableEq

/-- Run one call. -/
def perform (w : World) : Call → Async Value
  | Call.readFile path raw => do pure (Value.content (← readFile w path raw))
  | Call.writeFile path offset contents t raw => do
    writeFile w path offset contents t raw
    pure Value.undefined
  | Call.makeDir path t => do pure (Value.bool (← makeDir w path t))
  | Call.listDir path => do pure (Value.entries (← listDir w path))
  | Call.delete path => do pure (Value.bool (← delete w path))
  | Call.move oldPath newPath => do pure (Value.bool (← move w oldPath newPath))
  | Call.readOnly => do pure (Value.bool (← readOnly w))
  | Call.versionInfo => do pure (Value.parsed (← versionInfo w))
  | Call.otherDevices => do pure (Value.parsed (← otherDevices w))

/-- Run calls one after the other, each awaited (its exception caught by the
caller) before the next starts; the results are returned in order with the
final state. -/
def performAll (w : World) : List Call → State → List (Except JSError Value) × State
  | [], s => ([], s)
  | c :: cs, s =>
    let r := perform w c s
    let rest := performAll w cs r.2
    (r.1 :: rest.1, rest.2)

/-! ## Definitions used to state the properties -/

instance exceptDecEq {ε α : Type} [DecidableEq ε] [DecidableEq α] : DecidableEq (Except ε α)
  | Except.ok a, Except.ok b =>
    if h : a = b then isTrue (by rw [h]) else isFalse (by intro h2; cases h2; exact h rfl)
  | Except.error a, Except.error b =>
    if h : a = b then isTrue (by rw [h]) else isFalse (by intro h2; cases h2; exact h rfl)
  | Except.ok _, Except.error _ => isFalse (by intro h; cases h)
  | Except.error _, Except.ok _ => isFalse (by intro h; cases h)

/-- The request `_fetch(location, options)` hands to `fetch`. -/
def builtRequest (w : World) (location : String) (options : FetchOptions) : Request :=
  { location := location, base := "http://" ++ w.hostname,
    options := { options with credentials := some (options.credentials.getD "include") } }

/-- The capability-discovery request `OPTIONS /fs/`. -/
def discoveryRequest (w : World) : Request :=
  builtRequest w "/fs/" { noOptions with method := some "OPTIONS" }

/-- Whether a request carries the verb `OPTIONS`. -/
def isOptions (r : Request) : Bool := r.options.method == some "OPTIONS"

/-- The error `_checkConnection` throws. -/
def notConnected : JSError :=
  JSError.error "Unable to perform file operation. Not Connected."

/-- The error `_checkWritable` throws. -/
def readOnlyFileSystem : JSError :=
  JSError.error "File System is Read Only. Try disabling the USB Drive."

/-- A computation leaves a populated allowed-methods set as it is and sends
no `OPTIONS` request from a state where the set is populated. -/
def Frame {α : Type} (m : Async α) : Prop :=
  ∀ (s : State) (ms : List String), s.allowedMethods = some ms →
    (m s).2.allowedMethods = some ms ∧
      ∃ extra, (m s).2.sent = s.sent ++ extra ∧ ∀ r ∈ extra, isOptions r = false

/-- The operations that change the device's file system. -/
def Call.isMutation : Call → Bool
  | Call.writeFile _ _ _ _ _ => true
  | Call.makeDir _ _ => true
  | Call.delete _ => true
  | Call.move _ _ => true
  | _ => false

/-- Capability discovery gives the client the set `ms`: either the set is
cached already, or it is not and the device answers the discovery request
`_checkConnection` is about to send with an OK response whose
`Access-Control-Allow-Methods` header parses to `ms`. -/
def Discovers (w : World) (s : State) (ms : List String) : Prop :=
  s.allowedMethods = some ms ∨
    (s.allowedMethods = none ∧ w.urlParses "/fs/" ("http://" ++ w.hostname) = true ∧
      ∃ r h, w.fetch s.sent.length (discoveryRequest w) = FetchOutcome.response r ∧
        r.ok = true ∧ r.headersGet "Access-Control-Allow-Methods" = some h ∧
        ms = parseAllowedMethods h)

/-- The requests `_checkConnection` sends from state `s`: the discovery request when
the set is not cached, none otherwise. -/
def discoverySent (w : World) (s : State) : List Request :=
  if s.allowedMethods = none then [discoveryRequest w] else []

/-- A plain `200 OK` response. -/
def okResponse : Response :=
  { status := 200, statusText := "OK", headers := [], body := "", json := none }

/-- A device that answers every request with `200 OK`; the probe reports
connected. -/
def permissiveWorld : World :=
  { hostname := "circuitpython.local"
    connectionStatus := fun _ => true
    urlParses := fun _ _ => true
    fetch := fun _ _ => FetchOutcome.response okResponse }

/-- A client whose cached set is `GET`, `OPTIONS`, `DELETE`: it lacks `PUT`. -/
def noPutState : State :=
  { allowedMethods := some ["GET", "OPTIONS", "DELETE"], sent := [], probes := 0, warnings := [] }

/-- The options `writeFile("/code.py", 0, "x", 1)` passes to `_fetch`. -/
def putOptions : FetchOptions :=
  { credentials := none, method := some "PUT", body := some "x",
    headers := [("X-Timestamp", HeaderValue.number 1)] }

/-- A device that advertises every verb at discovery and answers every other
request with `404 Not Found`. -/
def notFoundWorld : World :=
  { hostname := "circuitpython.local"
    connectionStatus := fun _ => true
    urlParses := fun _ _ => true
    fetch := fun _ req =>
      if req.options.method = some "OPTIONS" then
        FetchOutcome.response
          { status := 200, statusText := "OK",
            headers := [("Access-Control-Allow-Methods", "GET, OPTIONS, PUT, DELETE, MOVE")],
            body := "", json := none }
      else
        FetchOutcome.response
          { status := 404, statusText := "Not Found", headers := [], body := "", json := none } }

/-- A device whose discovery answer lacks `DELETE` (the USB drive is
mounted) and that would accept every other request. -/
def readOnlyWorld : World :=
  { hostname := "circuitpython.local"
    connectionStatus := fun _ => true
    urlParses := fun _ _ => true
    fetch := fun _ req =>
      if req.options.method = some "OPTIONS" then
        FetchOutcome.response
          { status := 200, statusText := "OK",
            headers := [("Access-Control-Allow-Methods", "GET, OPTIONS")],
            body := "", json := none }
      else FetchOutcome.response okResponse }

/-- Two strings are equal when letter case is ignored: they are the same
once every letter `A`-`Z` is replaced by its lower-case form. -/
def equalsIgnoringCase (a b : String) : Prop :=
  a.data.map Char.toLower = b.data.map Char.toLower

instance equalsIgnoringCaseDecidable (a b : String) : Decidable (equalsIgnoringCase a b) :=
  inferInstanceAs (Decidable (a.data.map Char.toLower = b.data.map Char.toLower))

/-- Some comma-separated item of the header value `h` equals `DELETE` after
trimming surrounding white space and ignoring letter case. -/
def listsDelete (h : String) : Prop :=
  ∃ item, item ∈ split ',' h ∧ equalsIgnoringCase (trim item) "DELETE"

/-- A device that advertises `delete` in lower case among other verbs. -/
def lowerCaseWorld : World :=
  { hostname := "circuitpython.local"
    connectionStatus := fun _ => true
    urlParses := fun _ _ => true
    fetch := fun _ req =>
      if req.options.method = some "OPTIONS" then
        FetchOutcome.response
          { status := 200, statusText := "OK",
            headers := [("access-control-allow-methods", "get, put ,\tdelete ")],
            body := "", json := none }
      else FetchOutcome.response okResponse }

/-- A world whose probe reports "not connected". -/
def offlineWorld : World :=
  { hostname := "circuitpython.local"
    connectionStatus := fun _ => false
    urlParses := fun _ _ => true
    fetch := fun _ _ => FetchOutcome.response okResponse }

/-- A world in which every request fails at the transport layer. -/
def unreachableWorld : World :=
  { hostname := "nowhere.local"
    connectionStatus := fun _ => true
    urlParses := fun _ _ => true
    fetch := fun _ _ => FetchOutcome.networkError }

/-- Truncation of a number to an integer (towards zero), as `Math.trunc`. -/
def JSNumber.truncate : JSNumber → JSNumber
  | JSNumber.finite q => JSNumber.finite ((if 0 ≤ q then ⌊q⌋ else ⌈q⌉ : ℤ) : ℚ)
  | other => other

/-- The directory entry with the file date in whole milliseconds:
`modified_ns` divided by 1,000,000 and truncated to an integer. -/
def toDirEntryTruncated (result : ParsedEntry) : DirEntry :=
  { path := result.name, isDir := result.directory, fileSize := result.file_size,
    fileDate := (JSNumber.divide result.modified_ns (JSNumber.finite 1000000)).truncate }

/-- The request `listDir(path)` sends. -/
def listRequest (w : World) (path : String) : Request :=
  builtRequest w ("/fs" ++ withTrailingSlash path)
    { noOptions with headers := [("Accept", HeaderValue.text "application/json")] }

/-- A file modified 1.5 ms after the epoch. -/
def halfMillisecondEntry : ServerEntry :=
  { name := "a.txt", directory := false, file_size := 10, modified_ns := 1500000 }

/-- A file modified in November 2023, at a whole number of milliseconds: its
`modified_ns` is a multiple of 1,000,000 that binary64 cannot represent. -/
def presentDayEntry : ServerEntry :=
  { name := "code.py", directory := false, file_size := 2048,
    modified_ns := 1700000000002000000 }

/-- The entry of the specification's example: modified 5 ms after the epoch. -/
def fiveMillisecondEntry : ServerEntry :=
  { name := "a.txt", directory := false, file_size := 10, modified_ns := 5000000 }

/-- A device that advertises every verb and answers every listing with the
given entries. -/
def listingWorld (entries : List ServerEntry) : World :=
  { hostname := "circuitpython.local"
    connectionStatus := fun _ => true
    urlParses := fun _ _ => true
    fetch := fun _ req =>
      if req.options.method = some "OPTIONS" then
        FetchOutcome.response
          { status := 200, statusText := "OK",
            headers := [("Access-Control-Allow-Methods", "GET, OPTIONS, PUT, DELETE, MOVE")],
            body := "", json := none }
      else
        FetchOutcome.response
          { status := 200, statusText := "OK", headers := [], body := "",
            json := some entries } }

/-- The error a transport failure is mapped to; its message names the host. -/
def hostNotFoundError (w : World) : JSError :=
  JSError.protocolError ("Host '" ++ w.hostname ++ "' not found.")

/-- The path normalisation as the specification words it: `p` itself when
`p` ends with a slash, `p` followed by a slash otherwise. -/
def normalizedDirPath (p : String) : String :=
  if p.data.getLast? = some '/' then p else p ++ "/"

/-- The request `makeDir` sends for an already normalised path. -/
def makeDirRequest (w : World) (normalized : String) (modificationTime : Nat) : Request :=
  { location := "/fs" ++ normalized, base := "http://" ++ w.hostname,
    options :=
      { credentials := some "include", method := some "PUT", body := none,
        headers := [("X-Timestamp", HeaderValue.number modificationTime)] } }

/-- A device that advertises every verb and answers every request with
`200 OK`. -/
def writableWorld : World :=
  { hostname := "circuitpython.local"
    connectionStatus := fun _ => true
    urlParses := fun _ _ => true
    fetch := fun _ req =>
      if req.options.method = some "OPTIONS" then
        FetchOutcome.response
          { status := 200, statusText := "OK",
            headers := [("Access-Control-Allow-Methods", "GET, OPTIONS, PUT, DELETE, MOVE")],
            body := "", json := none }
      else FetchOutcome.response okResponse }

/-! ## `class LineBreakTransformer` (`js/common/plotter.js`) -/

/-- `lines.pop()`: the last element of the array (`none` is `undefined`, for
an empty array) and the array without it. -/
def pop (lines : List String) : Option String × List String :=
  (lines.getLast?, lines.dropLast)

/-- The one field of a `LineBreakTransformer`: the container that holds stream
data until a new line. -/
structure LineBreakTransformer where
  container : String
deriving DecidableEq, Repr

/-- `transform(chunk, linesList)`: the new transformer and the new contents of
`linesList` (the array is mutated by `push`).  `split` never returns an empty
array, so `pop` returns a string and the default is never used. -/
def LineBreakTransformer.transform (t : LineBreakTransformer) (chunk : String)
    (linesList : List String) : LineBreakTransformer × List String :=
  let container := t.container ++ chunk
  let lines := split '\n' container
  let popped := pop lines
  ({ container := popped.1.getD "" }, linesList ++ popped.2)

/-- The characters of the pieces with `sep` between consecutive pieces. -/
def joinChars (sep : Char) : List (List Char) → List Char
  | [] => []
  | piece :: rest =>
    match rest with
    | [] => piece
    | _ :: _ => piece ++ sep :: joinChars sep rest

/-- `lines.join("\n")`: the lines with a newline between consecutive lines. -/
def joinLines (lines : List String) : String :=
  String.mk (joinChars '\n' (lines.map String.data))

/-! ## `class Workflow` (`assets/js/workflows/workflow.js`): saving -/

namespace Workflow

/-- A value of `path` or of `this.currentFilename`: `undefined`, `null` or a
string. -/
inductive PathValue
  | undefined
  | null
  | name (s : String)
deriving DecidableEq, Repr

/-- The path a dialog resolves to (`none` is `null`: the dialog was
cancelled) as a value. -/
def PathValue.ofOption : Option String → PathValue
  | none => PathValue.null
  | some s => PathValue.name s

/-- `a != b` (loose inequality) on such values: `undefined` and `null` are
loosely equal to each other and to nothing else; strings compare by
content. -/
def looseNotEqual : PathValue → PathValue → Bool
  | PathValue.name a, PathValue.name b => a != b
  | PathValue.name _, _ => true
  | _, PathValue.name _ => true
  | _, _ => false

/-- The argument `saveFile` passes to the write callback: `0` or `null`. -/
inductive WriteArgument
  | zero
  | null
deriving DecidableEq, Repr

/-- The collaborators of `saveFile` and `saveAs`, each answering by the number
of calls made to it so far: the save dialog behind `openFileDialog` ("return
the path or null if canceled"), `fileHelper.fileExists`, `window.confirm`, and
the write callback `_writeText` given to `init`.  A promise may reject. -/
structure Desk where
  openFileDialog : Nat → Except JSError (Option String)
  fileExists : Nat → String → Except JSError Bool
  confirm : Nat → String → Bool
  writeText : Nat → WriteArgument → Except JSError Unit

/-- The field `currentFilename` and the log of the calls made to the
collaborators: number of dialogs opened, paths passed to `fileExists`,
messages passed to `window.confirm`, arguments passed to `_writeText`. -/
structure WorkflowState where
  currentFilename : PathValue
  dialogs : Nat
  existsChecks : List String
  confirms : List String
  writes : List WriteArgument
deriving DecidableEq, Repr

/-- How a computation ends when it does not return: an exception, or the
model ran out of fuel. -/
inductive FlowError
  | thrown (e : JSError)
  | outOfFuel
deriving DecidableEq, Repr

/-- An awaited computation of the workflow. -/
def Flow (α : Type) : Type := WorkflowState → Except FlowError α × WorkflowState

/-- Sequencing: an exception ends the sequence. -/
def Flow.bind {α β : Type} (m : Flow α) (f : α → Flow β) : Flow β :=
  fun s =>
    match m s with
    | (Except.ok a, s1) => f a s1
    | (Except.error e, s1) => (Except.error e, s1)

instance : Monad Flow where
  pure a := fun s => (Except.ok a, s)
  bind := Flow.bind

/-- The outcome of a collaborator's promise as the outcome of awaiting it. -/
def awaited {α : Type} : Except JSError α → Except FlowError α
  | Except.ok a => Except.ok a
  | Except.error e => Except.error (FlowError.thrown e)

/-- Read `this.currentFilename`. -/
def getCurrentFilename : Flow PathValue := fun s => (Except.ok s.currentFilename, s)

/-- Assign `this.currentFilename`. -/
def setCurrentFilename (v : PathValue) : Flow Unit :=
  fun s => (Except.ok (), { s with currentFilename := v })

/-- `async openFileDialog(FILE_DIALOG_SAVE)`. -/
def openFileDialog (w : Desk) : Flow (Option String) :=
  fun s => (awaited (w.openFileDialog s.dialogs), { s with dialogs := s.dialogs + 1 })

/-- `this.fileHelper.fileExists(path)`. -/
def fileExists (w : Desk) (path : String) : Flow Bool :=
  fun s =>
    (awaited (w.fileExists s.existsChecks.length path),
      { s with existsChecks := s.existsChecks ++ [path] })

/-- `async showBusy(functionPromise)`: the result of the promise; the busy
indicator it toggles is not part of the model. -/
def showBusy {α : Type} (functionPromise : Flow α) : Flow α := functionPromise

/-- `window.confirm(message)`. -/
def windowConfirm (w : Desk) (message : String) : Flow Bool :=
  fun s => (Except.ok (w.confirm s.confirms.length message),
    { s with confirms := s.confirms ++ [message] })

/-- `this._writeText(argument)`. -/
def _writeText (w : Desk) (argument : WriteArgument) : Flow Unit :=
  fun s =>
    (awaited (w.writeText s.writes.length argument), { s with writes := s.writes ++ [argument] })

/-- The model ran out of fuel. -/
def outOfFuel {α : Type} : Flow α := fun s => (Except.error FlowError.outOfFuel, s)

mutual

/-- `async saveFile(path)`.  The first argument bounds the depth of the calls
between `saveFile` and `saveAs`. -/
def saveFile (w : Desk) : Nat → PathValue → Flow Bool
  | 0, _ => outOfFuel
  | fuel + 1, path => do
    let previousFile ← getCurrentFilename
    let path ←
      if path ≠ PathValue.undefined then pure path
      else if (← getCurrentFilename) ≠ PathValue.null then getCurrentFilename
      else do
        let chosen ← saveAs w fuel
        pure (PathValue.ofOption chosen)
    if path ≠ PathValue.null then
      setCurrentFilename path
      _writeText w (if path ≠ previousFile then WriteArgument.zero else WriteArgument.null)
      pure true
    else
      setCurrentFilename previousFile
      pure false

/-- `async saveAs()`: the chosen path, or `null`. -/
def saveAs (w : Desk) : Nat → Flow (Option String)
  | 0 => outOfFuel
  | fuel + 1 => do
    let path ← openFileDialog w
    match path with
    | none => pure path
    | some chosen =>
      let existing ←
        if looseNotEqual (PathValue.name chosen) (← getCurrentFilename) then
          showBusy (fileExists w chosen)
        else pure false
      if existing then
        if ← windowConfirm w ("Overwrite existing file '" ++ chosen ++ "'?") then
          let _ ← saveFile w fuel (PathValue.name chosen)
          pure path
        else
          pure none
      else
        let _ ← saveFile w fuel (PathValue.name chosen)
        pure path

end

end Workflow

namespace Workflow

/-- The resolved path of `saveFile(path)`: `path` when it is given; else the
current filename when that is not `null`; else what `saveAs` returns. -/
def resolvedPath (w : Desk) (fuel : Nat) (path : PathValue) : Flow PathValue :=
  fun s =>
    match path with
    | PathValue.undefined =>
      if s.currentFilename = PathValue.null then
        match saveAs w fuel s with
        | (Except.ok chosen, s1) => (Except.ok (PathValue.ofOption chosen), s1)
        | (Except.error e, s1) => (Except.error e, s1)
      else (Except.ok s.currentFilename, s)
    | given => (Except.ok given, s)

/-- The argument of the write callback for a resolved path and the filename
held at entry: `0` when they differ, `null` when they are the same. -/
def writeArgumentFor (resolved previousFile : PathValue) : WriteArgument :=
  if resolved = previousFile then WriteArgument.null else WriteArgument.zero

/-- A desk whose save dialog proposes `/new.py`, where that file exists, the
user confirms, and every write succeeds. -/
def overwritingDesk : Desk :=
  { openFileDialog := fun _ => Except.ok (some "/new.py")
    fileExists := fun _ _ => Except.ok true
    confirm := fun _ _ => true
    writeText := fun _ _ => Except.ok () }

/-- A desk whose save dialog is cancelled. -/
def cancellingDesk : Desk :=
  { openFileDialog := fun _ => Except.ok none
    fileExists := fun _ _ => Except.ok true
    confirm := fun _ _ => true
    writeText := fun _ _ => Except.ok () }

/-- The state in which `saveAs` leaves a new workflow on the overwriting desk:
the file was chosen, found, confirmed and written by the call of `saveFile`
inside `saveAs`. -/
def afterSaveAs : WorkflowState :=
  { currentFilename := PathValue.name "/new.py", dialogs := 1, existsChecks := ["/new.py"],
    confirms := ["Overwrite existing file '/new.py'?"], writes := [WriteArgument.zero] }

/-- A workflow right after construction: no current file. -/
def WorkflowState.initial : WorkflowState :=
  { currentFilename := PathValue.null, dialogs := 0, existsChecks := [], confirms := [],
    writes := [] }

end Workflow

/-! ## The monad and `_fetch` -/

theorem pure_run {α : Type} (a : α) (s : State) : (pure a : Async α) s = (Except.ok a, s) := rfl

theorem bind_eq {α β : Type} (m : Async α) (f : α → Async β) : (m >>= f) = Async.bind m f := rfl

theorem Async.bind_assoc {α β γ : Type} (m : Async α) (f : α → Async β) (g : β → Async γ) :
    Async.bind (Async.bind m f) g = Async.bind m (fun a => Async.bind (f a) g) := by
  funext s
  simp only [Async.bind]
  rcases m s with ⟨_ | _, s1⟩ <;> rfl

theorem Async.bind_ok {α β : Type} {m : Async α} {f : α → Async β} {s s1 : State} {a : α}
    (h : m s = (Except.ok a, s1)) : Async.bind m f s = f a s1 := by
  simp only [Async.bind, h]

theorem Async.bind_error {α β : Type} {m : Async α} {f : α → Async β} {s s1 : State}
    {e : JSError} (h : m s = (Except.error e, s1)) :
    Async.bind m f s = (Except.error e, s1) := by
  simp only [Async.bind, h]

theorem Async.of_bind_ok {α β : Type} {m : Async α} {f : α → Async β} {s s2 : State} {b : β}
    (h : Async.bind m f s = (Except.ok b, s2)) :
    ∃ a s1, m s = (Except.ok a, s1) ∧ f a s1 = (Except.ok b, s2) := by
  simp only [Async.bind] at h
  rcases hm : m s with ⟨_ | a, s1⟩
  · rw [hm] at h; simp at h
  · rw [hm] at h; exact ⟨a, s1, rfl, h⟩

theorem fetch_run (w : World) (location : String) (options : FetchOptions) (s : State) :
    _fetch w location options s =
      if w.urlParses location ("http://" ++ w.hostname) then
        match w.fetch s.sent.length (builtRequest w location options) with
        | FetchOutcome.networkError =>
          (Except.error (JSError.protocolError (hostNotFound w)),
            { s with sent := s.sent ++ [builtRequest w location options] })
        | FetchOutcome.response r =>
          if r.ok then
            (Except.ok r, { s with sent := s.sent ++ [builtRequest w location options] })
          else
            (Except.error (JSError.protocolError r.statusText),
              { s with sent := s.sent ++ [builtRequest w location options] })
      else (Except.error (JSError.protocolError (hostNotFound w)), s) := by
  unfold _fetch
  rcases hm : options.method with _ | m <;>
    by_cases hu : w.urlParses location ("http://" ++ w.hostname) = true <;>
    simp [bind_eq, Async.bind, pure_run, throwJS, platformFetch, Promise.toBoolean,
      builtRequest, hm, hu] <;>
    rcases hf : w.fetch s.sent.length _ with _ | r <;>
    simp [hf, bind_eq, Async.bind, pure_run, throwJS] <;>
    (cases hok : r.ok <;> simp [hok, throwJS, pure_run])

theorem fetch_ok {w : World} {location : String} {options : FetchOptions} {s s1 : State}
    {r : Response} (h : _fetch w location options s = (Except.ok r, s1)) :
    r.ok = true ∧ w.urlParses location ("http://" ++ w.hostname) = true ∧
      w.fetch s.sent.length (builtRequest w location options) = FetchOutcome.response r ∧
      s1 = { s with sent := s.sent ++ [builtRequest w location options] } := by
  rw [fetch_run] at h
  by_cases hu : w.urlParses location ("http://" ++ w.hostname) = true
  · rw [if_pos hu] at h
    rcases hf : w.fetch s.sent.length (builtRequest w location options) with _ | r2
    · rw [hf] at h; simp at h
    · rw [hf] at h
      by_cases hok : r2.ok = true
      · simp [hok] at h
        obtain ⟨h1, h2⟩ := h
        subst h1
        exact ⟨hok, hu, rfl, h2.symm⟩
      · simp [hok] at h
  · rw [if_neg hu] at h; simp at h

/-- The state after `_fetch` differs from the state before at most by one
more request in the log, the one `_fetch` builds. -/
theorem fetch_state (w : World) (location : String) (options : FetchOptions) (s : State) :
    (_fetch w location options s).2 = s ∨
      (_fetch w location options s).2 =
        { s with sent := s.sent ++ [builtRequest w location options] } := by
  rw [fetch_run]
  by_cases hu : w.urlParses location ("http://" ++ w.hostname) = true
  · rw [if_pos hu]
    right
    rcases w.fetch s.sent.length (builtRequest w location options) with _ | r2
    · rfl
    · by_cases hok : r2.ok = true <;> simp [hok]
  · rw [if_neg hu]; left; rfl

/-! ## `_checkConnection` -/

theorem checkConnection_populated (w : World) (s : State) (ms : List String)
    (h : s.allowedMethods = some ms) :
    _checkConnection w s =
      if w.connectionStatus s.probes then
        (Except.ok (), { s with probes := s.probes + 1 })
      else (Except.error notConnected, { s with probes := s.probes + 1 }) := by
  unfold _checkConnection
  cases hc : w.connectionStatus s.probes <;>
    simp [bind_eq, Async.bind, pure_run, throwJS, connectionStatus, getAllowedMethods, h, hc,
      notConnected]

theorem checkConnection_unpopulated (w : World) (s : State) (h : s.allowedMethods = none) :
    _checkConnection w s =
      match _fetch w "/fs/" { noOptions with method := some "OPTIONS" }
          { s with probes := s.probes + 1 } with
      | (Except.ok r, s1) =>
        match r.headersGet "Access-Control-Allow-Methods" with
        | none =>
          (Except.error (JSError.typeError "Cannot read properties of null (reading 'split')"), s1)
        | some hv => (Except.ok (), { s1 with allowedMethods := some (parseAllowedMethods hv) })
      | (Except.error e, s1) => (Except.error e, s1) := by
  obtain ⟨am, sent, probes, warnings⟩ := s
  simp only at h
  subst h
  unfold _checkConnection
  rcases hfe : _fetch w "/fs/" { noOptions with method := some "OPTIONS" }
    ⟨none, sent, probes + 1, warnings⟩ with ⟨_ | r, s1⟩
  · simp [bind_eq, Async.bind, pure_run, throwJS, connectionStatus, getAllowedMethods, hfe]
  · rcases hh : r.headersGet "Access-Control-Allow-Methods" with _ | hv <;>
      simp [bind_eq, Async.bind, pure_run, throwJS, connectionStatus, getAllowedMethods, hfe, hh,
        setAllowedMethods]

/-! ## What every operation leaves alone -/

theorem frame_pure {α : Type} (a : α) : Frame (pure a : Async α) := by
  intro s ms h
  exact ⟨h, [], by simp [pure_run], by simp⟩

theorem frame_throw {α : Type} (e : JSError) : Frame (throwJS e : Async α) := by
  intro s ms h
  exact ⟨h, [], by simp [throwJS], by simp⟩

theorem frame_get : Frame getAllowedMethods := by
  intro s ms h
  exact ⟨h, [], by simp [getAllowedMethods], by simp⟩

theorem frame_bind {α β : Type} {m : Async α} {f : α → Async β} (hm : Frame m)
    (hf : ∀ a, Frame (f a)) : Frame (Async.bind m f) := by
  intro s ms h
  obtain ⟨h1, e1, h2, h3⟩ := hm s ms h
  rcases hms : m s with ⟨e | a, s1⟩
  · rw [Async.bind_error hms]
    rw [hms] at h1 h2
    exact ⟨h1, e1, h2, h3⟩
  · rw [Async.bind_ok hms]
    rw [hms] at h1 h2
    obtain ⟨k1, e2, k2, k3⟩ := hf a s1 ms h1
    refine ⟨k1, e1 ++ e2, ?_, ?_⟩
    · rw [k2]
      simp only at h2
      rw [h2, List.append_assoc]
    · intro r hr
      rcases List.mem_append.mp hr with hr | hr
      · exact h3 r hr
      · exact k3 r hr

theorem frame_fetch (w : World) (location : String) (options : FetchOptions)
    (h : options.method ≠ some "OPTIONS") : Frame (_fetch w location options) := by
  intro s ms hs
  have hno : isOptions (builtRequest w location options) = false := by
    simp [isOptions, builtRequest, h]
  rcases fetch_state w location options s with h1 | h1
  · rw [h1]
    exact ⟨hs, [], by simp, by simp⟩
  · rw [h1]
    exact ⟨hs, [builtRequest w location options], rfl, by simpa using hno⟩

theorem frame_checkConnection (w : World) : Frame (_checkConnection w) := by
  intro s ms h
  rw [checkConnection_populated w s ms h]
  cases w.connectionStatus s.probes <;> exact ⟨h, [], by simp, by simp⟩

theorem frame_readOnly (w : World) : Frame (readOnly w) := by
  unfold readOnly
  simp only [bind_eq]
  refine frame_bind (frame_checkConnection w) (fun _ => frame_bind frame_get (fun o => ?_))
  rcases o with _ | ms
  · exact frame_throw _
  · exact frame_pure _

theorem frame_checkWritable (w : World) : Frame (_checkWritable w) := by
  unfold _checkWritable
  simp only [bind_eq]
  refine frame_bind (frame_readOnly w) (fun b => ?_)
  cases b
  · exact frame_pure _
  · exact frame_throw _

theorem frame_parsedOrNull (c : FileContent) : Frame (parsedOrNull c) := by
  cases c with
  | null => exact frame_pure _
  | text t =>
    show Frame (if t.data.length == 0 then pure none
      else throwJS (JSError.typeError "response.json is not a function"))
    split
    · exact frame_pure _
    · exact frame_throw _
  | blob d => exact frame_throw _

/-- Every public operation is `_checkConnection` followed by a computation that
leaves a populated allowed-methods set alone and sends no `OPTIONS`
request. -/
theorem perform_checkConnection (w : World) (c : Call) :
    ∃ rest : Async Value,
      perform w c = Async.bind (_checkConnection w) (fun _ => rest) ∧ Frame rest := by
  cases c with
  | readFile path raw =>
    apply Exists.intro
    constructor
    · simp only [perform, readFile, _readFile, bind_eq, Async.bind_assoc]
      rfl
    · refine frame_bind (frame_fetch w _ _ (by simp [noOptions])) (fun r => ?_)
      refine frame_bind ?_ (fun _ => frame_pure _)
      split <;> exact frame_pure _
  | writeFile path offset contents t raw =>
    apply Exists.intro
    constructor
    · simp only [perform, writeFile, bind_eq, Async.bind_assoc]
      rfl
    · refine frame_bind (frame_checkWritable w) (fun _ => ?_)
      refine frame_bind (frame_fetch w _ _ (by cases raw <;> simp)) (fun r => ?_)
      exact frame_bind (frame_pure _) (fun _ => frame_pure _)
  | makeDir path t =>
    apply Exists.intro
    constructor
    · simp only [perform, makeDir, bind_eq, Async.bind_assoc]
      rfl
    · refine frame_bind (frame_checkWritable w) (fun _ => ?_)
      refine frame_bind (frame_fetch w _ _ (by simp)) (fun r => ?_)
      exact frame_bind (frame_pure _) (fun _ => frame_pure _)
  | listDir path =>
    apply Exists.intro
    constructor
    · simp only [perform, listDir, bind_eq, Async.bind_assoc]
      rfl
    · refine frame_bind (frame_fetch w _ _ (by simp [noOptions])) (fun r => ?_)
      refine frame_bind ?_ (fun _ => frame_pure _)
      split
      · exact frame_throw _
      · exact frame_pure _
  | delete path =>
    apply Exists.intro
    constructor
    · simp only [perform, delete, bind_eq, Async.bind_assoc]
      rfl
    · refine frame_bind (frame_checkWritable w) (fun _ => ?_)
      refine frame_bind (frame_fetch w _ _ (by simp)) (fun r => ?_)
      exact frame_bind (frame_pure _) (fun _ => frame_pure _)
  | move oldPath newPath =>
    apply Exists.intro
    constructor
    · simp only [perform, move, bind_eq, Async.bind_assoc]
      rfl
    · refine frame_bind (frame_checkWritable w) (fun _ => ?_)
      refine frame_bind (frame_fetch w _ _ (by simp)) (fun r => ?_)
      exact frame_bind (frame_pure _) (fun _ => frame_pure _)
  | readOnly =>
    apply Exists.intro
    constructor
    · simp only [perform, readOnly, bind_eq, Async.bind_assoc]
      rfl
    · refine frame_bind frame_get (fun o => ?_)
      refine frame_bind ?_ (fun _ => frame_pure _)
      rcases o with _ | ms
      · exact frame_throw _
      · exact frame_pure _
  | versionInfo =>
    apply Exists.intro
    constructor
    · simp only [perform, versionInfo, _readFile, bind_eq, Async.bind_assoc]
      rfl
    · refine frame_bind (frame_fetch w _ _ (by simp [noOptions])) (fun r => ?_)
      refine frame_bind ?_ (fun c => frame_bind (frame_parsedOrNull c) (fun _ => frame_pure _))
      split <;> exact frame_pure _
  | otherDevices =>
    apply Exists.intro
    constructor
    · simp only [perform, otherDevices, _readFile, bind_eq, Async.bind_assoc]
      rfl
    · refine frame_bind (frame_fetch w _ _ (by simp [noOptions])) (fun r => ?_)
      refine frame_bind ?_ (fun c => frame_bind (frame_parsedOrNull c) (fun _ => frame_pure _))
      split <;> exact frame_pure _

/-! ## C1: the method-allowed test of `_fetch` -/

/-- C1 (evaluation at the failing input): with the cached set `GET`,
`OPTIONS`, `DELETE`, which does not contain `PUT`, `_fetch` does not throw a
"not allowed" error for the verb `PUT`: it hands the request to `fetch` and
returns the response.  The same happens through `writeFile`: the `PUT`
request is the one request it sends. -/
theorem c1_unlisted_put_is_sent :
    includes ["GET", "OPTIONS", "DELETE"] (JSValue.string (toUpperCase "PUT")) = false ∧
    _fetch permissiveWorld "/fs/code.py" putOptions noPutState =
      (Except.ok okResponse,
        { noPutState with sent := [builtRequest permissiveWorld "/fs/code.py" putOptions] }) ∧
    (writeFile permissiveWorld "/code.py" 0 "x" 1 false noPutState).1 = Except.ok () ∧
    (writeFile permissiveWorld "/code.py" 0 "x" 1 false noPutState).2.sent =
      [builtRequest permissiveWorld "/fs/code.py" putOptions] := by
  refine ⟨by decide, by rfl, by rfl, by rfl⟩

/-! ## C2: non-OK responses to `readFile` and the metadata getters -/

/-- C2 (evaluation at the failing input): when the device answers the `GET`
with `404 Not Found`, `readFile` throws a `ProtocolError` carrying the status
text, for `raw` false and true alike, and so do `versionInfo` and
`otherDevices`; none of them returns its sentinel. -/
theorem c2_readFile_throws_on_404 :
    (readFile notFoundWorld "/missing.txt" false State.fresh).1 =
      Except.error (JSError.protocolError "Not Found") ∧
    (readFile notFoundWorld "/missing.txt" true State.fresh).1 =
      Except.error (JSError.protocolError "Not Found") ∧
    (versionInfo notFoundWorld State.fresh).1 =
      Except.error (JSError.protocolError "Not Found") ∧
    (otherDevices notFoundWorld State.fresh).1 =
      Except.error (JSError.protocolError "Not Found") := by
  refine ⟨by rfl, by rfl, by rfl, by rfl⟩

/-! ## C3: `_checkWritable` -/

theorem checkConnection_discovers {w : World} {s : State} {ms : List String} (hd : Discovers w s ms)
    (hconn : s.allowedMethods ≠ none → w.connectionStatus s.probes = true) :
    _checkConnection w s =
      (Except.ok (),
        { allowedMethods := some ms, sent := s.sent ++ discoverySent w s,
          probes := s.probes + 1, warnings := s.warnings }) := by
  rcases hd with h | ⟨h, hu, r, hv, hf, hok, hh, hms⟩
  · rw [checkConnection_populated w s ms h, hconn (by simp [h])]
    simp [discoverySent, h]
  · rw [checkConnection_unpopulated w s h, fetch_run]
    have hf2 : w.fetch s.sent.length
        (builtRequest w "/fs/" { noOptions with method := some "OPTIONS" }) =
        FetchOutcome.response r := hf
    simp [hu, hf2, hok, hh, hms, discoverySent, h, discoveryRequest]

theorem checkWritable_readOnly {w : World} {s : State} {ms : List String}
    (h : s.allowedMethods = some ms) (hconn : w.connectionStatus s.probes = true)
    (hdel : "DELETE" ∉ ms) :
    _checkWritable w s = (Except.error readOnlyFileSystem, { s with probes := s.probes + 1 }) := by
  unfold _checkWritable readOnly
  simp [bind_eq, Async.bind, checkConnection_populated w s ms h, hconn, getAllowedMethods, h, includes,
    hdel, pure_run, throwJS, readOnlyFileSystem]

/-- C3: on a connected client whose discovered allowed-methods set lacks
`DELETE`, each of `writeFile`, `makeDir`, `delete` and `move` throws the
read-only error, and the requests it sends are exactly those of
`_checkConnection`: the
discovery request when the set was not cached yet, none otherwise. -/
theorem c3_read_only_blocks_mutations (w : World) (s : State) (ms : List String) (c : Call)
    (hc : c.isMutation = true) (hconn : ∀ k, s.probes ≤ k → w.connectionStatus k = true)
    (hd : Discovers w s ms) (hdel : "DELETE" ∉ ms) :
    (perform w c s).1 = Except.error readOnlyFileSystem ∧
      (perform w c s).2.sent = s.sent ++ discoverySent w s ∧
      (∀ r ∈ discoverySent w s, r = discoveryRequest w ∧ isOptions r = true) := by
  have hg := checkConnection_discovers hd (fun _ => hconn s.probes (le_refl _))
  have hw := @checkWritable_readOnly w
    { allowedMethods := some ms, sent := s.sent ++ discoverySent w s,
      probes := s.probes + 1, warnings := s.warnings } ms rfl
    (hconn (s.probes + 1) (Nat.le_succ _)) hdel
  refine ⟨?_, ?_, ?_⟩
  · cases c <;> simp [Call.isMutation] at hc <;>
      simp [perform, writeFile, makeDir, delete, move, bind_eq, Async.bind, hg, hw]
  · cases c <;> simp [Call.isMutation] at hc <;>
      simp [perform, writeFile, makeDir, delete, move, bind_eq, Async.bind, hg, hw]
  · intro r hr
    unfold discoverySent at hr
    split at hr
    · simp at hr
      subst hr
      exact ⟨rfl, by rfl⟩
    · simp at hr

/-- C3 (witness): a fresh client on a device that advertises only `GET` and
`OPTIONS`, calling `delete`. -/
theorem c3_read_only_blocks_mutations_witness :
    (perform readOnlyWorld (Call.delete "/code.py") State.fresh).1 =
        Except.error readOnlyFileSystem ∧
      (perform readOnlyWorld (Call.delete "/code.py") State.fresh).2.sent =
        State.fresh.sent ++ discoverySent readOnlyWorld State.fresh ∧
      (∀ r ∈ discoverySent readOnlyWorld State.fresh,
        r = discoveryRequest readOnlyWorld ∧ isOptions r = true) :=
  c3_read_only_blocks_mutations readOnlyWorld State.fresh ["GET", "OPTIONS"]
    (Call.delete "/code.py") rfl (fun _ _ => rfl)
    (Or.inr ⟨rfl, rfl, _, "GET, OPTIONS", rfl, by decide, by decide, by decide⟩) (by decide)

/-! ## C4: `readOnly` and the discovered header -/

theorem toNat_ofNat_small (k : Nat) (h : k < 0xd800) : (Char.ofNat k).toNat = k := by
  have hv : k.isValidChar := Or.inl h
  simp [Char.ofNat, hv, Char.ofNatAux, Char.toNat, UInt32.toNat]

theorem toLower_toUpper (c : Char) : (c.toUpper).toLower = c.toLower := by
  by_cases h : c.toNat ≥ 97 ∧ c.toNat ≤ 122
  · have h1 : c.toUpper = Char.ofNat (c.toNat - 32) := by simp [Char.toUpper, h]
    have h2 : (Char.ofNat (c.toNat - 32)).toNat = c.toNat - 32 :=
      toNat_ofNat_small _ (by omega)
    have h3 : c.toLower = c := by
      have : ¬ (c.toNat ≥ 65 ∧ c.toNat ≤ 90) := by omega
      simp [Char.toLower, this]
    rw [h1, h3]
    have h4 : (Char.ofNat (c.toNat - 32)).toNat ≥ 65 ∧
        (Char.ofNat (c.toNat - 32)).toNat ≤ 90 := by omega
    unfold Char.toLower
    simp only []
    rw [if_pos h4, h2]
    have : c.toNat - 32 + 32 = c.toNat := by omega
    rw [this]
    exact Char.ofNat_toNat c
  · have h1 : c.toUpper = c := by simp [Char.toUpper, h]
    rw [h1]

theorem toUpper_toLower (c : Char) : (c.toLower).toUpper = c.toUpper := by
  by_cases h : c.toNat ≥ 65 ∧ c.toNat ≤ 90
  · have h1 : c.toLower = Char.ofNat (c.toNat + 32) := by simp [Char.toLower, h]
    have h2 : (Char.ofNat (c.toNat + 32)).toNat = c.toNat + 32 :=
      toNat_ofNat_small _ (by omega)
    have h3 : c.toUpper = c := by
      have : ¬ (c.toNat ≥ 97 ∧ c.toNat ≤ 122) := by omega
      simp [Char.toUpper, this]
    rw [h1, h3]
    have h4 : (Char.ofNat (c.toNat + 32)).toNat ≥ 97 ∧
        (Char.ofNat (c.toNat + 32)).toNat ≤ 122 := by omega
    unfold Char.toUpper
    simp only []
    rw [if_pos h4, h2]
    have : c.toNat + 32 - 32 = c.toNat := by omega
    rw [this]
    exact Char.ofNat_toNat c
  · have h1 : c.toLower = c := by simp [Char.toLower, h]
    rw [h1]

/-- Upper-casing gives `DELETE` exactly for the strings that equal `DELETE`
when letter case is ignored. -/
theorem toUpperCase_eq_delete (x : String) :
    toUpperCase x = "DELETE" ↔ equalsIgnoringCase x "DELETE" := by
  have hD : ("DELETE" : String).data.map Char.toUpper = ("DELETE" : String).data := by decide
  unfold toUpperCase equalsIgnoringCase
  constructor
  · intro h
    have h1 : x.data.map Char.toUpper = ("DELETE" : String).data := congrArg String.data h
    have h2 := congrArg (List.map Char.toLower) h1
    rw [List.map_map] at h2
    have h3 : (Char.toLower ∘ Char.toUpper) = Char.toLower := funext toLower_toUpper
    rw [h3] at h2
    exact h2
  · intro h
    have h2 := congrArg (List.map Char.toUpper) h
    rw [List.map_map, List.map_map] at h2
    have h3 : (Char.toUpper ∘ Char.toLower) = Char.toUpper := funext toUpper_toLower
    rw [h3, hD] at h2
    rw [h2]

theorem mem_parseAllowedMethods_delete (h : String) :
    "DELETE" ∈ parseAllowedMethods h ↔ listsDelete h := by
  unfold parseAllowedMethods listsDelete
  rw [List.mem_map]
  constructor
  · rintro ⟨item, hi, he⟩
    exact ⟨item, hi, (toUpperCase_eq_delete _).mp he⟩
  · rintro ⟨item, hi, he⟩
    exact ⟨item, hi, (toUpperCase_eq_delete _).mpr he⟩

theorem readOnly_run {w : World} {s : State} {ms : List String} (hd : Discovers w s ms)
    (hconn : s.allowedMethods ≠ none → w.connectionStatus s.probes = true) :
    (readOnly w s).1 = Except.ok (!ms.contains "DELETE") := by
  unfold readOnly
  simp [bind_eq, Async.bind, checkConnection_discovers hd hconn, getAllowedMethods, pure_run, includes]

/-- C4: when capability discovery gave (or, at this call, gives) the header
value `h` and `_checkConnection` lets the call through, `readOnly()` returns true if
none of the comma-separated items of `h` equals `DELETE` after trimming and
ignoring letter case, and false if one of them does. -/
theorem c4_readOnly_iff_no_delete (w : World) (s : State) (h : String)
    (hd : Discovers w s (parseAllowedMethods h))
    (hconn : s.allowedMethods ≠ none → w.connectionStatus s.probes = true) :
    (¬ listsDelete h → (readOnly w s).1 = Except.ok true) ∧
      (listsDelete h → (readOnly w s).1 = Except.ok false) := by
  rw [readOnly_run hd hconn, ← mem_parseAllowedMethods_delete]
  constructor
  · intro hn
    simp [hn]
  · intro hy
    simp [hy]

/-- C4 (witness): a fresh client on a device that advertises
`get, put ,<tab>delete `: `readOnly()` is false. -/
theorem c4_readOnly_iff_no_delete_witness :
    listsDelete "get, put ,\tdelete " ∧
      (readOnly lowerCaseWorld State.fresh).1 = Except.ok false :=
  have hl : listsDelete "get, put ,\tdelete " := ⟨"\tdelete ", by decide, by decide⟩
  ⟨hl, (c4_readOnly_iff_no_delete lowerCaseWorld State.fresh "get, put ,\tdelete "
    (Or.inr ⟨rfl, rfl, _, "get, put ,\tdelete ", rfl, by decide, by decide, rfl⟩)
    (fun hne => absurd rfl hne)).2 hl⟩

/-! ## C5: discovery happens once -/

theorem frame_perform (w : World) (c : Call) : Frame (perform w c) := by
  obtain ⟨rest, heq, hrest⟩ := perform_checkConnection w c
  rw [heq]
  exact frame_bind (frame_checkConnection w) (fun _ => hrest)

/-- From a state with a cached set, a sequence of operations keeps the set
and sends no `OPTIONS` request. -/
theorem performAll_populated (w : World) (calls : List Call) :
    ∀ (s : State) (ms : List String), s.allowedMethods = some ms →
      (performAll w calls s).2.allowedMethods = some ms ∧
        ∃ extra, (performAll w calls s).2.sent = s.sent ++ extra ∧
          ∀ r ∈ extra, isOptions r = false := by
  induction calls with
  | nil =>
    intro s ms h
    exact ⟨h, [], by simp [performAll], by simp⟩
  | cons c cs ih =>
    intro s ms h
    obtain ⟨h1, e1, h2, h3⟩ := frame_perform w c s ms h
    obtain ⟨k1, e2, k2, k3⟩ := ih (perform w c s).2 ms h1
    refine ⟨k1, e1 ++ e2, ?_, ?_⟩
    · show (performAll w cs (perform w c s).2).2.sent = s.sent ++ (e1 ++ e2)
      rw [k2, h2, List.append_assoc]
    · intro r hr
      rcases List.mem_append.mp hr with hr | hr
      · exact h3 r hr
      · exact k3 r hr

/-- The first operation on a client without a cached set, when discovery
succeeds: the set is cached, the discovery request is the next one in the
log, and no other `OPTIONS` request follows. -/
theorem perform_discovering {w : World} {s : State} {ms : List String} (c : Call)
    (hs : s.allowedMethods = none) (hd : Discovers w s ms) :
    (perform w c s).2.allowedMethods = some ms ∧
      ∃ extra, (perform w c s).2.sent = s.sent ++ discoveryRequest w :: extra ∧
        ∀ r ∈ extra, isOptions r = false := by
  obtain ⟨rest, heq, hrest⟩ := perform_checkConnection w c
  have hg := checkConnection_discovers hd (fun hne => absurd hs hne)
  rw [heq, Async.bind_ok hg]
  obtain ⟨h1, e, h2, h3⟩ := hrest
    { allowedMethods := some ms, sent := s.sent ++ discoverySent w s,
      probes := s.probes + 1, warnings := s.warnings } ms rfl
  refine ⟨h1, e, ?_, h3⟩
  rw [h2]
  simp [discoverySent, hs]

/-- C5: for every non-empty sequence of public operations on a freshly
constructed client whose capability discovery succeeds at the first request
(an OK response carrying the `Access-Control-Allow-Methods` header `h`): the
first request sent is `OPTIONS /fs/`, exactly one `OPTIONS` request is sent in
total, and after every non-empty initial part of the sequence the cached set
is the one parsed from `h`. -/
theorem c5_discovery_happens_once (w : World) (calls : List Call) (r : Response) (h : String)
    (hne : calls ≠ []) (hu : w.urlParses "/fs/" ("http://" ++ w.hostname) = true)
    (hf : w.fetch 0 (discoveryRequest w) = FetchOutcome.response r) (hok : r.ok = true)
    (hh : r.headersGet "Access-Control-Allow-Methods" = some h) :
    (performAll w calls State.fresh).2.sent.head? = some (discoveryRequest w) ∧
      ((performAll w calls State.fresh).2.sent.filter isOptions).length = 1 ∧
      (∀ done later, calls = done ++ later → done ≠ [] →
        (performAll w done State.fresh).2.allowedMethods = some (parseAllowedMethods h)) := by
  have hd : Discovers w State.fresh (parseAllowedMethods h) :=
    Or.inr ⟨rfl, hu, r, h, hf, hok, hh, rfl⟩
  have hdisc : isOptions (discoveryRequest w) = true := by rfl
  have key : ∀ cs : List Call, cs ≠ [] →
      (performAll w cs State.fresh).2.allowedMethods = some (parseAllowedMethods h) ∧
        ∃ extra, (performAll w cs State.fresh).2.sent = discoveryRequest w :: extra ∧
          ∀ q ∈ extra, isOptions q = false := by
    intro cs hcs
    rcases cs with _ | ⟨c, cs⟩
    · exact absurd rfl hcs
    · obtain ⟨h1, e1, h2, h3⟩ := perform_discovering c rfl hd
      obtain ⟨k1, e2, k2, k3⟩ := performAll_populated w cs (perform w c State.fresh).2 _ h1
      refine ⟨k1, e1 ++ e2, ?_, ?_⟩
      · show (performAll w cs (perform w c State.fresh).2).2.sent = _
        rw [k2, h2]
        simp [State.fresh]
      · intro q hq
        rcases List.mem_append.mp hq with hq | hq
        · exact h3 q hq
        · exact k3 q hq
  obtain ⟨_, extra, hsent, hextra⟩ := key calls hne
  refine ⟨?_, ?_, ?_⟩
  · rw [hsent]; rfl
  · rw [hsent, List.filter_cons, if_pos hdisc]
    have : extra.filter isOptions = [] := by
      rw [List.filter_eq_nil_iff]
      intro q hq
      simp [hextra q hq]
    rw [this]
    rfl
  · intro done later _ hdone
    exact (key done hdone).1

/-- C5 (witness): `readOnly`, `delete`, `readFile` on a fresh client of a
device that advertises `GET, OPTIONS`. -/
theorem c5_discovery_happens_once_witness :
    (performAll readOnlyWorld [Call.readOnly, Call.delete "/a", Call.readFile "/b" false]
        State.fresh).2.sent.head? = some (discoveryRequest readOnlyWorld) ∧
      ((performAll readOnlyWorld [Call.readOnly, Call.delete "/a", Call.readFile "/b" false]
        State.fresh).2.sent.filter isOptions).length = 1 ∧
      (∀ done later,
        [Call.readOnly, Call.delete "/a", Call.readFile "/b" false] = done ++ later →
        done ≠ [] →
        (performAll readOnlyWorld done State.fresh).2.allowedMethods =
          some (parseAllowedMethods "GET, OPTIONS")) :=
  c5_discovery_happens_once readOnlyWorld
    [Call.readOnly, Call.delete "/a", Call.readFile "/b" false] _ "GET, OPTIONS"
    (by simp) rfl rfl (by decide) (by decide)

/-! ## C6: the connectivity probe -/

/-- C6: when the cached set is populated and the probe answers "not
connected", every public operation throws the not-connected error, sends no
request and leaves the cached set as it was. -/
theorem c6_not_connected (w : World) (s : State) (ms : List String) (c : Call)
    (hs : s.allowedMethods = some ms) (hp : w.connectionStatus s.probes = false) :
    (perform w c s).1 = Except.error notConnected ∧ (perform w c s).2.sent = s.sent ∧
      (perform w c s).2.allowedMethods = some ms := by
  obtain ⟨rest, heq, _⟩ := perform_checkConnection w c
  have hg : _checkConnection w s =
      (Except.error notConnected, { s with probes := s.probes + 1 }) := by
    rw [checkConnection_populated w s ms hs, hp]
    rfl
  rw [heq, Async.bind_error hg]
  exact ⟨rfl, rfl, hs⟩

/-- C6 (witness): `listDir` on a client with a cached set whose probe reports
"not connected". -/
theorem c6_not_connected_witness :
    (perform offlineWorld (Call.listDir "/") noPutState).1 = Except.error notConnected ∧
      (perform offlineWorld (Call.listDir "/") noPutState).2.sent = noPutState.sent ∧
      (perform offlineWorld (Call.listDir "/") noPutState).2.allowedMethods =
        some ["GET", "OPTIONS", "DELETE"] :=
  c6_not_connected offlineWorld noPutState ["GET", "OPTIONS", "DELETE"] (Call.listDir "/")
    rfl rfl

/-! ## Binary64 rounding -/

theorem bitLengthAux_zero (fuel : Nat) : bitLengthAux fuel 0 = 0 := by
  cases fuel <;> simp [bitLengthAux]

theorem bitLengthAux_spec : ∀ (fuel n : Nat), n < 2 ^ fuel → 0 < n →
    ∃ k, bitLengthAux fuel n = k + 1 ∧ 2 ^ k ≤ n ∧ n < 2 ^ (k + 1) := by
  intro fuel
  induction fuel with
  | zero => intro n h1 h2; simp at h1; omega
  | succ fuel ih =>
    intro n h1 h2
    have hn : n ≠ 0 := by omega
    simp only [bitLengthAux, hn, if_false]
    by_cases h : n / 2 = 0
    · refine ⟨0, by simp [h, bitLengthAux_zero], by simpa using h2, ?_⟩
      have : n < 2 := by omega
      simpa using this
    · have hlt : n / 2 < 2 ^ fuel := by
        rw [Nat.pow_succ] at h1
        omega
      obtain ⟨k, hk, hlo, hhi⟩ := ih (n / 2) hlt (by omega)
      refine ⟨k + 1, by rw [hk], ?_, ?_⟩
      · rw [Nat.pow_succ]; omega
      · rw [Nat.pow_succ 2 (k + 1)]; omega

theorem bitLength_spec (n : Nat) (h : 0 < n) :
    ∃ k, bitLength n = k + 1 ∧ 2 ^ k ≤ n ∧ n < 2 ^ (k + 1) :=
  bitLengthAux_spec n n (Nat.lt_two_pow n) h

theorem twoToThe_eq_zpow (e : ℤ) : twoToThe e = (2 : ℚ) ^ e := by
  unfold twoToThe
  by_cases h : 0 ≤ e
  · rw [if_pos h]
    obtain ⟨k, rfl⟩ := Int.eq_ofNat_of_zero_le h
    simp
  · rw [if_neg h]
    obtain ⟨k, hk⟩ : ∃ k : ℕ, e = -(k : ℤ) :=
      ⟨(-e).toNat, by rw [Int.toNat_of_nonneg (by omega)]; ring⟩
    subst hk
    rw [neg_neg, Int.toNat_natCast, zpow_neg, zpow_natCast, one_div]
    push_cast
    rfl

theorem roundHalfEven_nearest (x : ℚ) : |(roundHalfEven x : ℚ) - x| ≤ 1 / 2 := by
  have h1 := Int.floor_le x
  have h2 := Int.lt_floor_add_one x
  unfold roundHalfEven
  simp only []
  rw [abs_le]
  split_ifs with ha hb hc
  · constructor <;> linarith
  · push_cast; constructor <;> linarith
  · have : x - ⌊x⌋ = 1 / 2 := le_antisymm (not_lt.mp hb) (not_lt.mp ha)
    constructor <;> linarith
  · have : x - ⌊x⌋ = 1 / 2 := le_antisymm (not_lt.mp hb) (not_lt.mp ha)
    push_cast; constructor <;> linarith

theorem floorLog2_spec (q : ℚ) (hq : 0 < q) :
    (2 : ℚ) ^ (floorLog2 q) ≤ q ∧ q < (2 : ℚ) ^ (floorLog2 q + 1) := by
  have hnum : 0 < q.num := Rat.num_pos.mpr hq
  have hn : 0 < q.num.natAbs := Int.natAbs_pos.mpr (ne_of_gt hnum)
  obtain ⟨kn, hkn, hnlo, hnhi⟩ := bitLength_spec q.num.natAbs hn
  obtain ⟨kd, hkd, hdlo, hdhi⟩ := bitLength_spec q.den q.den_pos
  have hqeq : q = (q.num.natAbs : ℚ) / (q.den : ℚ) := by
    have h1 : ((q.num.natAbs : ℤ) : ℚ) = (q.num : ℚ) := by
      rw [Int.natAbs_of_nonneg (le_of_lt hnum)]
    have h2 : ((q.num.natAbs : ℕ) : ℚ) = ((q.num.natAbs : ℤ) : ℚ) :=
      (Int.cast_natCast _).symm
    rw [h2, h1]
    exact (Rat.num_div_den q).symm
  have hd0 : (0 : ℚ) < q.den := by exact_mod_cast q.den_pos
  have hnlo' : (2 : ℚ) ^ (kn : ℤ) ≤ (q.num.natAbs : ℚ) := by
    rw [zpow_natCast]; exact_mod_cast hnlo
  have hnhi' : (q.num.natAbs : ℚ) < (2 : ℚ) ^ ((kn : ℤ) + 1) := by
    have : (q.num.natAbs : ℚ) < (2 : ℚ) ^ (kn + 1) := by exact_mod_cast hnhi
    rwa [← zpow_natCast, Nat.cast_add, Nat.cast_one] at this
  have hdlo' : (2 : ℚ) ^ (kd : ℤ) ≤ (q.den : ℚ) := by
    rw [zpow_natCast]; exact_mod_cast hdlo
  have hdhi' : (q.den : ℚ) < (2 : ℚ) ^ ((kd : ℤ) + 1) := by
    have : (q.den : ℚ) < (2 : ℚ) ^ (kd + 1) := by exact_mod_cast hdhi
    rwa [← zpow_natCast, Nat.cast_add, Nat.cast_one] at this
  have he0 : ((bitLength q.num.natAbs : ℤ) - (bitLength q.den : ℤ)) = (kn : ℤ) - kd := by
    rw [hkn, hkd]; push_cast; ring
  have h2 : (0 : ℚ) < 2 := by norm_num
  -- bounds on q
  have hlow : (2 : ℚ) ^ ((kn : ℤ) - kd - 1) < q := by
    rw [hqeq, lt_div_iff₀ hd0]
    calc (2 : ℚ) ^ ((kn : ℤ) - kd - 1) * (q.den : ℚ)
        < (2 : ℚ) ^ ((kn : ℤ) - kd - 1) * (2 : ℚ) ^ ((kd : ℤ) + 1) :=
          mul_lt_mul_of_pos_left hdhi' (zpow_pos h2 _)
      _ = (2 : ℚ) ^ (kn : ℤ) := by
          rw [← zpow_add₀ (by norm_num : (2 : ℚ) ≠ 0)]; congr 1; ring
      _ ≤ _ := hnlo'
  have hhigh : q < (2 : ℚ) ^ ((kn : ℤ) - kd + 1) := by
    rw [hqeq, div_lt_iff₀ hd0]
    calc (q.num.natAbs : ℚ) < (2 : ℚ) ^ ((kn : ℤ) + 1) := hnhi'
      _ = (2 : ℚ) ^ ((kn : ℤ) - kd + 1) * (2 : ℚ) ^ (kd : ℤ) := by
          rw [← zpow_add₀ (by norm_num : (2 : ℚ) ≠ 0)]; congr 1; ring
      _ ≤ _ := mul_le_mul_of_nonneg_left hdlo' (le_of_lt (zpow_pos h2 _))
  unfold floorLog2
  simp only [he0, twoToThe_eq_zpow]
  split_ifs with h
  · exact ⟨h, hhigh⟩
  · refine ⟨le_of_lt hlow, ?_⟩
    have : (kn : ℤ) - kd - 1 + 1 = (kn : ℤ) - kd := by ring
    rw [this]
    exact not_le.mp h
/-- A finite result of `roundBinary64` is a whole multiple of the unit in the
last place, `2 ^ (e - 52)` for the exponent `e` of the argument (at least
-1022), and differs from the argument by at most half that unit. -/
theorem roundBinary64_nearest (q r : ℚ) (hq : q ≠ 0)
    (h : roundBinary64 q = JSNumber.finite r) :
    (∃ m : ℤ, r = (m : ℚ) * twoToThe (max (floorLog2 |q|) (-1022) - 52)) ∧
      |r - q| ≤ twoToThe (max (floorLog2 |q|) (-1022) - 52) / 2 := by
  have hu : 0 < twoToThe (max (floorLog2 |q|) (-1022) - 52) := by
    rw [twoToThe_eq_zpow]
    exact zpow_pos (by norm_num) _
  unfold roundBinary64 at h
  rw [if_neg hq] at h
  simp only [] at h
  generalize twoToThe (max (floorLog2 |q|) (-1022) - 52) = u at h hu ⊢
  have hnear := roundHalfEven_nearest (|q| / u)
  generalize roundHalfEven (|q| / u) = m at h hnear
  have hbound : abs ((m : ℚ) * u - abs q) ≤ u / 2 := by
    have h1 : (m : ℚ) * u - |q| = ((m : ℚ) - |q| / u) * u := by
      field_simp
    rw [h1, abs_mul, abs_of_pos hu]
    calc abs ((m : ℚ) - abs q / u) * u ≤ 1 / 2 * u := mul_le_mul_of_nonneg_right hnear (le_of_lt hu)
      _ = u / 2 := by ring
  split_ifs at h with h1 h2 h3
  · have hr := JSNumber.finite.inj h
    subst hr
    refine ⟨⟨m, rfl⟩, ?_⟩
    rw [abs_of_pos h3] at hbound
    exact hbound
  · have hr := JSNumber.finite.inj h
    subst hr
    refine ⟨⟨-m, by push_cast; ring⟩, ?_⟩
    have hneg : q < 0 := lt_of_le_of_ne (not_lt.mp h3) hq
    rw [abs_of_neg hneg] at hbound
    have h4 : -((m : ℚ) * u) - q = -((m : ℚ) * u - -q) := by ring
    rw [h4, abs_neg]
    exact hbound

/-! ## C7: `listDir` -/

theorem listDir_run {w : World} {s s1 : State} {path : String} {r : Response}
    {entries : List ServerEntry} (hg : _checkConnection w s = (Except.ok (), s1))
    (hu : w.urlParses ("/fs" ++ withTrailingSlash path) ("http://" ++ w.hostname) = true)
    (hf : w.fetch s1.sent.length (listRequest w path) = FetchOutcome.response r)
    (hok : r.ok = true) (hj : r.json = some entries) :
    listDir w path s =
      (Except.ok ((entries.map parseEntry).map toDirEntry),
        { s1 with sent := s1.sent ++ [listRequest w path] }) := by
  unfold listDir
  simp only [bind_eq]
  rw [Async.bind_ok hg]
  have hfetch : _fetch w ("/fs" ++ withTrailingSlash path)
      { noOptions with headers := [("Accept", HeaderValue.text "application/json")] } s1 =
      (Except.ok r, { s1 with sent := s1.sent ++ [listRequest w path] }) := by
    rw [fetch_run, if_pos hu]
    have hf2 : w.fetch s1.sent.length (builtRequest w ("/fs" ++ withTrailingSlash path)
        { noOptions with headers := [("Accept", HeaderValue.text "application/json")] }) =
        FetchOutcome.response r := hf
    rw [hf2]
    simp [hok, listRequest]
  rw [Async.bind_ok hfetch]
  simp [Response.parsedJson, hj, pure_run]

/-- C7 (counterexample): for an entry with `modified_ns = 1500000` the file
date `listDir` returns is 3/2 (1.5 ms), not the truncated value 1; the result
differs from the list of entries with truncated dates. -/
theorem c7_fileDate_is_not_truncated :
    (listDir (listingWorld [halfMillisecondEntry]) "/" State.fresh).1 =
        Except.ok [{ path := "a.txt", isDir := false, fileSize := JSNumber.finite 10,
                     fileDate := JSNumber.finite (3 / 2) }] ∧
      (toDirEntryTruncated (parseEntry halfMillisecondEntry)).fileDate = JSNumber.finite 1 ∧
      (listDir (listingWorld [halfMillisecondEntry]) "/" State.fresh).1 ≠
        Except.ok ([halfMillisecondEntry].map (fun e => toDirEntryTruncated (parseEntry e))) := by
  refine ⟨by decide!, by decide!, by decide!⟩

/-- C7 (what holds instead): when the device answers the listing request with
an OK response whose JSON body is the array `entries`, `listDir` returns a
sequence of the same length and order whose `i`-th element has `path = name`,
`isDir = directory`, `fileSize = file_size` (the number the JSON literal
parses to) and `fileDate = modified_ns / 1000000` as JavaScript computes it:
the binary64 quotient of the parsed number by 1000000, rounded to nearest,
not truncated to an integer: a finite file date differs from the exact
quotient by at most half a unit in the last place.  So `5000000` gives 5 and `1500000` gives 1.5;
`1700000000002000000`, a multiple of 1,000,000, parses to
`1700000000001999872` and gives `6963200000008191 / 4096`
(1700000000001.9998); `1700000000000999936`, not a multiple, gives the whole
number 1700000000001; and 1 gives the binary64 number nearest to one
millionth. -/
theorem c7_listDir_entries (w : World) (s s1 : State) (path : String) (r : Response)
    (entries : List ServerEntry) (hg : _checkConnection w s = (Except.ok (), s1))
    (hu : w.urlParses ("/fs" ++ withTrailingSlash path) ("http://" ++ w.hostname) = true)
    (hf : w.fetch s1.sent.length (listRequest w path) = FetchOutcome.response r)
    (hok : r.ok = true) (hj : r.json = some entries) :
    (∃ out, (listDir w path s).1 = Except.ok out ∧ out.length = entries.length ∧
      ∀ (i : Nat) (hi : i < entries.length) (ho : i < out.length),
        out[i].path = entries[i].name ∧ out[i].isDir = entries[i].directory ∧
        out[i].fileSize = parseNumber entries[i].file_size ∧
        out[i].fileDate =
          JSNumber.divide (parseNumber entries[i].modified_ns) (JSNumber.finite 1000000) ∧
        (∀ ns d : ℚ, parseNumber entries[i].modified_ns = JSNumber.finite ns → ns ≠ 0 →
          out[i].fileDate = JSNumber.finite d →
          |d - ns / 1000000| ≤
            twoToThe (max (floorLog2 |ns / 1000000|) (-1022) - 52) / 2)) ∧
    JSNumber.divide (parseNumber 5000000) (JSNumber.finite 1000000) = JSNumber.finite 5 ∧
    JSNumber.divide (parseNumber 1500000) (JSNumber.finite 1000000) =
      JSNumber.finite (3 / 2) ∧
    parseNumber 1700000000002000000 = JSNumber.finite 1700000000001999872 ∧
    JSNumber.divide (parseNumber 1700000000002000000) (JSNumber.finite 1000000) =
      JSNumber.finite (6963200000008191 / 4096) ∧
    JSNumber.divide (parseNumber 1700000000000999936) (JSNumber.finite 1000000) =
      JSNumber.finite 1700000000001 ∧
    JSNumber.divide (parseNumber 1) (JSNumber.finite 1000000) =
      JSNumber.finite (4722366482869645 / 4722366482869645213696) := by
  refine ⟨⟨(entries.map parseEntry).map toDirEntry, ?_, by simp, ?_⟩,
    by decide!, by decide!, by decide!, by decide!, by decide!, by decide!⟩
  · rw [listDir_run hg hu hf hok hj]
  · intro i hi ho
    refine ⟨by simp [toDirEntry, parseEntry], by simp [toDirEntry, parseEntry],
      by simp [toDirEntry, parseEntry], by simp [toDirEntry, parseEntry], ?_⟩
    intro ns d hns hne hd
    simp only [List.getElem_map, toDirEntry, parseEntry, hns] at hd
    have hq : ns / 1000000 ≠ 0 := div_ne_zero hne (by norm_num)
    have hdiv : JSNumber.divide (JSNumber.finite ns) (JSNumber.finite 1000000) =
        roundBinary64 (ns / 1000000) := by
      simp [JSNumber.divide]
    rw [hdiv] at hd
    exact (roundBinary64_nearest (ns / 1000000) d hq hd).2

/-- C7 (witness): a listing with the example of the specification
(`modified_ns = 5000000`, file date 5) and a present-day file
(`modified_ns = 1700000000002000000`, file date 1700000000001.9998). -/
theorem c7_listDir_entries_witness :
    (listDir (listingWorld [fiveMillisecondEntry, presentDayEntry]) "/" State.fresh).1 =
      Except.ok
        [{ path := "a.txt", isDir := false, fileSize := JSNumber.finite 10,
           fileDate := JSNumber.finite 5 },
         { path := "code.py", isDir := false, fileSize := JSNumber.finite 2048,
           fileDate := JSNumber.finite (6963200000008191 / 4096) }] ∧
    ∃ out, (listDir (listingWorld [fiveMillisecondEntry, presentDayEntry]) "/"
        State.fresh).1 = Except.ok out ∧
      out.length = [fiveMillisecondEntry, presentDayEntry].length ∧
      ∀ (i : Nat) (hi : i < [fiveMillisecondEntry, presentDayEntry].length)
        (ho : i < out.length),
        out[i].path = [fiveMillisecondEntry, presentDayEntry][i].name ∧
        out[i].isDir = [fiveMillisecondEntry, presentDayEntry][i].directory ∧
        out[i].fileSize = parseNumber [fiveMillisecondEntry, presentDayEntry][i].file_size ∧
        out[i].fileDate =
          JSNumber.divide (parseNumber [fiveMillisecondEntry, presentDayEntry][i].modified_ns)
            (JSNumber.finite 1000000) ∧
        (∀ ns d : ℚ,
          parseNumber [fiveMillisecondEntry, presentDayEntry][i].modified_ns =
            JSNumber.finite ns → ns ≠ 0 →
          out[i].fileDate = JSNumber.finite d →
          |d - ns / 1000000| ≤
            twoToThe (max (floorLog2 |ns / 1000000|) (-1022) - 52) / 2) :=
  ⟨by decide!,
    (c7_listDir_entries (listingWorld [fiveMillisecondEntry, presentDayEntry]) State.fresh _ "/" _
      [fiveMillisecondEntry, presentDayEntry] rfl rfl rfl (by decide) rfl).1⟩

/-! ## C8: unreachable hosts -/

theorem perform_unreachable {w : World} {s : State} (c : Call) (hs : s.allowedMethods = none)
    (hnet : ∀ k req, w.fetch k req = FetchOutcome.networkError) :
    (perform w c s).1 = Except.error (hostNotFoundError w) ∧
      (perform w c s).2.allowedMethods = none ∧
      (perform w c s).2.sent = s.sent ++
        (if w.urlParses "/fs/" ("http://" ++ w.hostname) then [discoveryRequest w] else []) := by
  obtain ⟨rest, heq, _⟩ := perform_checkConnection w c
  have hg : _checkConnection w s =
      (Except.error (hostNotFoundError w),
        { allowedMethods := none,
          sent := s.sent ++
            (if w.urlParses "/fs/" ("http://" ++ w.hostname) then [discoveryRequest w] else []),
          probes := s.probes + 1, warnings := s.warnings }) := by
    rw [checkConnection_unpopulated w s hs, fetch_run, hnet]
    by_cases hu : w.urlParses "/fs/" ("http://" ++ w.hostname) = true <;>
      simp [hu, hs, hostNotFoundError, hostNotFound, discoveryRequest]
  rw [heq, Async.bind_error hg]
  exact ⟨rfl, rfl, rfl⟩

/-- C8: on a client with no cached set, when every request fails at the
transport layer, every operation of a sequence throws the host-not-found error
whose message names the client's host; the cached set is still unpopulated
afterwards, and each operation has attempted discovery again (one discovery
request per operation, when the URL can be built). -/
theorem c8_unreachable_host (w : World) (calls : List Call) (s : State)
    (hs : s.allowedMethods = none)
    (hnet : ∀ k req, w.fetch k req = FetchOutcome.networkError) :
    (performAll w calls s).1 =
        List.replicate calls.length (Except.error (hostNotFoundError w)) ∧
      (performAll w calls s).2.allowedMethods = none ∧
      (w.urlParses "/fs/" ("http://" ++ w.hostname) = true →
        (performAll w calls s).2.sent =
          s.sent ++ List.replicate calls.length (discoveryRequest w)) := by
  induction calls generalizing s with
  | nil => exact ⟨rfl, hs, fun _ => by simp [performAll]⟩
  | cons c cs ih =>
    obtain ⟨h1, h2, h3⟩ := perform_unreachable c hs hnet
    obtain ⟨k1, k2, k3⟩ := ih (perform w c s).2 h2
    refine ⟨?_, k2, ?_⟩
    · show (perform w c s).1 :: (performAll w cs (perform w c s).2).1 = _
      rw [h1, k1]
      rfl
    · intro hu
      show (performAll w cs (perform w c s).2).2.sent = _
      rw [k3 hu, h3, if_pos hu]
      simp [List.replicate_succ]

/-- C8 (witness): `readFile` then `readOnly` on a fresh client of an
unreachable host. -/
theorem c8_unreachable_host_witness :
    (performAll unreachableWorld [Call.readFile "/code.py" false, Call.readOnly]
        State.fresh).1 =
        List.replicate 2 (Except.error (JSError.protocolError "Host 'nowhere.local' not found.")) ∧
      (performAll unreachableWorld [Call.readFile "/code.py" false, Call.readOnly]
        State.fresh).2.allowedMethods = none ∧
      (unreachableWorld.urlParses "/fs/" ("http://" ++ unreachableWorld.hostname) = true →
        (performAll unreachableWorld [Call.readFile "/code.py" false, Call.readOnly]
          State.fresh).2.sent =
          State.fresh.sent ++ List.replicate 2 (discoveryRequest unreachableWorld)) :=
  c8_unreachable_host unreachableWorld [Call.readFile "/code.py" false, Call.readOnly]
    State.fresh rfl (fun _ _ => rfl)

/-! ## C9: `makeDir` and the trailing slash -/

theorem withTrailingSlash_eq (p : String) : withTrailingSlash p = normalizedDirPath p := by
  unfold withTrailingSlash normalizedDirPath lacksTrailingSlash
  by_cases h : p.data.getLast? = some '/'
  · have hne : p.data ≠ [] := by
      intro h0
      rw [h0] at h
      simp at h
    simp only [h, bne_self_eq_false, Bool.or_false, beq_iff_eq]
    rw [if_neg (fun h0 => hne (List.length_eq_zero.mp h0))]
    simp
  · simp [h]

theorem withTrailingSlash_ends (p : String) :
    (withTrailingSlash p).data.getLast? = some '/' := by
  rw [withTrailingSlash_eq]
  unfold normalizedDirPath
  by_cases h : p.data.getLast? = some '/'
  · rw [if_pos h]; exact h
  · rw [if_neg h]
    simp [String.data_append]

theorem makeDir_run {w : World} {s : State} {ms : List String} (p : String) (t : Nat)
    (hd : Discovers w s ms) (hconn : ∀ k, s.probes ≤ k → w.connectionStatus k = true)
    (hdel : "DELETE" ∈ ms)
    (hu : w.urlParses ("/fs" ++ withTrailingSlash p) ("http://" ++ w.hostname) = true) :
    (makeDir w p t s).2.sent =
      s.sent ++ discoverySent w s ++ [makeDirRequest w (withTrailingSlash p) t] := by
  have hg := checkConnection_discovers hd (fun _ => hconn s.probes (le_refl _))
  have hg2 := checkConnection_populated w
    { allowedMethods := some ms, sent := s.sent ++ discoverySent w s,
      probes := s.probes + 1, warnings := s.warnings } ms rfl
  rw [hconn (s.probes + 1) (Nat.le_succ _)] at hg2
  unfold makeDir _checkWritable readOnly
  simp only [bind_eq, Async.bind_assoc]
  rw [Async.bind_ok hg, Async.bind_ok hg2]
  simp only [Async.bind, getAllowedMethods, pure_run, includes, if_true]
  have hc : ms.contains "DELETE" = true := by simpa using hdel
  simp only [hc, Bool.not_true, Bool.false_eq_true, if_false, pure_run]
  rcases fetch_state w ("/fs" ++ withTrailingSlash p)
    { credentials := none, method := some "PUT", body := none,
      headers := [("X-Timestamp", HeaderValue.number t)] }
    { allowedMethods := some ms, sent := s.sent ++ discoverySent w s,
      probes := s.probes + 1 + 1, warnings := s.warnings } with hst | hst
  · exfalso
    rw [fetch_run, if_pos hu] at hst
    have hlen := congrArg (fun st => st.sent.length) hst
    revert hlen
    split
    · simp
    · split <;> simp
  · have hsent := congrArg State.sent hst
    revert hsent
    generalize _fetch w ("/fs" ++ withTrailingSlash p)
      { credentials := none, method := some "PUT", body := none,
        headers := [("X-Timestamp", HeaderValue.number t)] }
      { allowedMethods := some ms, sent := s.sent ++ discoverySent w s,
        probes := s.probes + 1 + 1, warnings := s.warnings } = res
    intro hsent
    rcases res with ⟨_ | r, s2⟩ <;> simpa [makeDirRequest, builtRequest] using hsent

theorem withTrailingSlash_idem (p : String) :
    withTrailingSlash (withTrailingSlash p) = withTrailingSlash p := by
  have h := withTrailingSlash_ends p
  have hne : (withTrailingSlash p).data ≠ [] := by
    intro h0
    rw [h0] at h
    simp at h
  generalize withTrailingSlash p = q at h hne
  unfold withTrailingSlash lacksTrailingSlash
  simp only [h, bne_self_eq_false, Bool.or_false, beq_iff_eq]
  rw [if_neg (fun h0 => hne (List.length_eq_zero.mp h0))]

/-- C9: on a connected, writable client, `makeDir(p, t)` sends (after the
discovery request of `_checkConnection`, if any) exactly one request: `PUT` to `/fs`
followed by `n(p)` with the header `X-Timestamp: t`, where `n(p)` is `p` when
`p` ends with a slash and `p` followed by a slash otherwise; `n` is
idempotent; `makeDir("/a/b", t)` and `makeDir("/a/b/", t)` are the same
computation, and the request of both is `PUT /fs/a/b/`. -/
theorem c9_makeDir_trailing_slash (w : World) (s : State) (ms : List String) (p : String)
    (t : Nat) (hd : Discovers w s ms)
    (hconn : ∀ k, s.probes ≤ k → w.connectionStatus k = true) (hdel : "DELETE" ∈ ms)
    (hu : w.urlParses ("/fs" ++ normalizedDirPath p) ("http://" ++ w.hostname) = true) :
    (makeDir w p t s).2.sent =
        s.sent ++ discoverySent w s ++ [makeDirRequest w (normalizedDirPath p) t] ∧
      normalizedDirPath (normalizedDirPath p) = normalizedDirPath p ∧
      makeDir w "/a/b" t = makeDir w "/a/b/" t ∧
      makeDirRequest w (normalizedDirPath "/a/b") t = makeDirRequest w "/a/b/" t ∧
      makeDirRequest w (normalizedDirPath "/a/b/") t = makeDirRequest w "/a/b/" t := by
  have h1 : withTrailingSlash "/a/b" = "/a/b/" := by decide
  have h2 : withTrailingSlash "/a/b/" = "/a/b/" := by decide
  refine ⟨?_, ?_, ?_, ?_, ?_⟩
  · rw [← withTrailingSlash_eq] at hu ⊢
    exact makeDir_run p t hd hconn hdel hu
  · rw [← withTrailingSlash_eq, ← withTrailingSlash_eq]
    exact withTrailingSlash_idem p
  · unfold makeDir
    rw [h1, h2]
  · rw [← withTrailingSlash_eq, h1]
  · rw [← withTrailingSlash_eq, h2]

/-- C9 (witness): `makeDir("/a/b", 7)` on a fresh client of a writable
device. -/
theorem c9_makeDir_trailing_slash_witness :
    (makeDir writableWorld "/a/b" 7 State.fresh).2.sent =
        State.fresh.sent ++ discoverySent writableWorld State.fresh ++
          [makeDirRequest writableWorld (normalizedDirPath "/a/b") 7] ∧
      normalizedDirPath (normalizedDirPath "/a/b") = normalizedDirPath "/a/b" ∧
      makeDir writableWorld "/a/b" 7 = makeDir writableWorld "/a/b/" 7 ∧
      makeDirRequest writableWorld (normalizedDirPath "/a/b") 7 =
        makeDirRequest writableWorld "/a/b/" 7 ∧
      makeDirRequest writableWorld (normalizedDirPath "/a/b/") 7 =
        makeDirRequest writableWorld "/a/b/" 7 :=
  c9_makeDir_trailing_slash writableWorld State.fresh
    (parseAllowedMethods "GET, OPTIONS, PUT, DELETE, MOVE") "/a/b" 7
    (Or.inr ⟨rfl, rfl, _, "GET, OPTIONS, PUT, DELETE, MOVE", rfl, by decide, by decide, rfl⟩)
    (fun _ _ => rfl) (by decide) rfl

/-! ## C10: the boolean results -/

theorem flag_after_fetch {w : World} {location : String} {options : FetchOptions}
    {pre : Async Unit} {s : State} {b : Bool}
    (h : (Async.bind (Async.bind pre (fun _ => _fetch w location options))
      (fun response => pure response.ok) s).1 = Except.ok b) : b = true := by
  have h2 : Async.bind (Async.bind pre (fun _ => _fetch w location options))
      (fun response => pure response.ok) s =
      (Except.ok b, (Async.bind (Async.bind pre (fun _ => _fetch w location options))
      (fun response => pure response.ok) s).2) := by
    rw [← h]
  obtain ⟨r, s2, k1, k3⟩ := Async.of_bind_ok h2
  obtain ⟨_, s1, _, k2⟩ := Async.of_bind_ok k1
  have hok := (fetch_ok k2).1
  rw [pure_run] at k3
  have := congrArg Prod.fst k3
  simp at this
  rw [← this, hok]

/-- C10: whenever `makeDir`, `delete` or `move` returns normally, the boolean
it returns is true. -/
theorem c10_returned_flag_is_true (w : World) (s : State) (p q : String) (t : Nat) (b : Bool)
    (h : (makeDir w p t s).1 = Except.ok b ∨ (delete w p s).1 = Except.ok b ∨
      (move w p q s).1 = Except.ok b) : b = true := by
  rcases h with h | h | h
  · unfold makeDir at h
    simp only [bind_eq, ← Async.bind_assoc] at h
    exact flag_after_fetch h
  · unfold delete at h
    simp only [bind_eq, ← Async.bind_assoc] at h
    exact flag_after_fetch h
  · unfold move at h
    simp only [bind_eq, ← Async.bind_assoc] at h
    exact flag_after_fetch h

/-- C10 (witness): `delete("/code.py")` on a fresh client of a writable
device returns normally, with true. -/
theorem c10_returned_flag_is_true_witness :
    (delete writableWorld "/code.py" State.fresh).1 = Except.ok true ∧ true = true :=
  ⟨rfl, c10_returned_flag_is_true writableWorld State.fresh "/code.py" "" 0 true
    (Or.inr (Or.inl rfl))⟩

/-! ## C11: `LineBreakTransformer.transform` -/

theorem splitChars_ne_nil (sep : Char) (cs : List Char) : splitChars sep cs ≠ [] := by
  cases cs with
  | nil => simp [splitChars]
  | cons c cs =>
    unfold splitChars
    split
    · simp
    · split <;> simp

/-- Splitting a concatenation: the pieces of `x` but the last, then the
pieces of the last piece of `x` followed by `y`. -/
theorem splitChars_append (sep : Char) (x y : List Char) :
    splitChars sep (x ++ y) =
      (splitChars sep x).dropLast ++ splitChars sep ((splitChars sep x).getLastD [] ++ y) := by
  induction x with
  | nil => simp [splitChars]
  | cons c xs ih =>
    by_cases hc : c = sep
    · have h1 : splitChars sep (c :: xs) = [] :: splitChars sep xs := by
        simp [splitChars, hc]
      have h2 : splitChars sep (c :: xs ++ y) = [] :: splitChars sep (xs ++ y) := by
        simp [splitChars, hc]
      rw [h1, h2, ih]
      rcases hs : splitChars sep xs with _ | ⟨q, qs⟩
      · exact absurd hs (splitChars_ne_nil sep xs)
      · simp [List.dropLast, List.getLastD_cons]
    · rcases hs : splitChars sep xs with _ | ⟨q, qs⟩
      · exact absurd hs (splitChars_ne_nil sep xs)
      · have h1 : splitChars sep (c :: xs) = (c :: q) :: qs := by
          simp [splitChars, hc, hs]
        have h2 : splitChars sep (c :: xs ++ y) =
            match splitChars sep (xs ++ y) with
            | [] => [[c]]
            | piece :: pieces => (c :: piece) :: pieces := by
          simp [splitChars, hc]
        rw [h1, h2, ih, hs]
        cases qs with
        | nil =>
          simp only [List.dropLast, List.nil_append, List.getLastD_cons, List.getLast?_nil,
            Option.getD_none, List.getLastD]
          show _ = splitChars sep (c :: (q ++ y))
          conv => rhs; unfold splitChars
          simp [hc]
        | cons q2 qs2 =>
          simp [List.dropLast, List.getLastD_cons]

theorem getLastD_splitChars_not_mem (sep : Char) (cs : List Char) :
    sep ∉ (splitChars sep cs).getLastD [] := by
  induction cs with
  | nil => simp [splitChars]
  | cons c cs ih =>
    rcases hs : splitChars sep cs with _ | ⟨q, qs⟩
    · exact absurd hs (splitChars_ne_nil sep cs)
    · rw [hs] at ih
      by_cases hc : c = sep
      · have h1 : splitChars sep (c :: cs) = [] :: q :: qs := by
          simp [splitChars, hc, hs]
        rw [h1]
        simpa [List.getLastD_cons] using ih
      · have h1 : splitChars sep (c :: cs) = (c :: q) :: qs := by
          simp [splitChars, hc, hs]
        rw [h1]
        cases qs with
        | nil =>
          have ih2 : sep ∉ q := by simpa using ih
          have hgoal : sep ∉ c :: q := by
            intro hm
            rcases List.mem_cons.mp hm with hm | hm
            · exact hc hm.symm
            · exact ih2 hm
          simpa using hgoal
        | cons q2 qs2 => simpa [List.getLastD_cons] using ih

theorem getLast?_splitChars (sep : Char) (cs : List Char) :
    (splitChars sep cs).getLast? = some ((splitChars sep cs).getLastD []) := by
  rcases hs : splitChars sep cs with _ | ⟨q, qs⟩
  · exact absurd hs (splitChars_ne_nil sep cs)
  · simp [List.getLast?_cons, List.getLastD_cons, List.getLastD_eq_getLast?]

theorem getLastD_append_of_ne_nil {α : Type} (l1 l2 : List α) (h : l2 ≠ []) (d : α) :
    (l1 ++ l2).getLastD d = l2.getLastD d := by
  rw [List.getLastD_eq_getLast?, List.getLast?_append_of_ne_nil _ h, ← List.getLastD_eq_getLast?]

/-- The result of `transform` in terms of the pieces of the characters of
`container + chunk`. -/
theorem transform_eq (t : LineBreakTransformer) (chunk : String) (linesList : List String) :
    t.transform chunk linesList =
      ({ container := String.mk ((splitChars '\n' (t.container.data ++ chunk.data)).getLastD []) },
        linesList ++ ((splitChars '\n' (t.container.data ++ chunk.data)).dropLast).map String.mk) := by
  unfold LineBreakTransformer.transform pop split
  simp only [String.data_append, List.getLast?_map, getLast?_splitChars, Option.map_some',
    Option.getD_some, List.map_dropLast]

theorem joinChars_splitChars (sep : Char) (cs : List Char) :
    joinChars sep (splitChars sep cs) = cs := by
  induction cs with
  | nil => simp [splitChars, joinChars]
  | cons c cs ih =>
    rcases hs : splitChars sep cs with _ | ⟨q, qs⟩
    · exact absurd hs (splitChars_ne_nil sep cs)
    · rw [hs] at ih
      by_cases hc : c = sep
      · have h1 : splitChars sep (c :: cs) = [] :: q :: qs := by
          simp [splitChars, hc, hs]
        rw [h1]
        simp only [joinChars, List.nil_append]
        rw [hc]
        exact congrArg (List.cons sep) ih
      · have h1 : splitChars sep (c :: cs) = (c :: q) :: qs := by
          simp [splitChars, hc, hs]
        rw [h1]
        cases qs with
        | nil =>
          simp only [joinChars] at ih ⊢
          rw [ih]
        | cons q2 qs2 =>
          simp only [joinChars, List.cons_append] at ih ⊢
          rw [ih]

theorem not_mem_of_mem_splitChars (sep : Char) (cs : List Char) :
    ∀ piece ∈ splitChars sep cs, sep ∉ piece := by
  induction cs with
  | nil => simp [splitChars]
  | cons c cs ih =>
    rcases hs : splitChars sep cs with _ | ⟨q, qs⟩
    · exact absurd hs (splitChars_ne_nil sep cs)
    · rw [hs] at ih
      by_cases hc : c = sep
      · have h1 : splitChars sep (c :: cs) = [] :: q :: qs := by
          simp [splitChars, hc, hs]
        rw [h1]
        intro piece hp
        rcases List.mem_cons.mp hp with hp | hp
        · rw [hp]; simp
        · exact ih piece hp
      · have h1 : splitChars sep (c :: cs) = (c :: q) :: qs := by
          simp [splitChars, hc, hs]
        rw [h1]
        intro piece hp
        rcases List.mem_cons.mp hp with hp | hp
        · rw [hp]
          intro hm
          rcases List.mem_cons.mp hm with hm | hm
          · exact hc hm.symm
          · exact ih q (List.mem_cons_self _ _) hm
        · exact ih piece (List.mem_cons_of_mem _ hp)

theorem dropLast_append_getLastD {α : Type} (l : List α) (h : l ≠ []) (d : α) :
    l.dropLast ++ [l.getLastD d] = l := by
  induction l with
  | nil => exact absurd rfl h
  | cons x xs ih =>
    cases xs with
    | nil => simp
    | cons y ys =>
      have := ih (by simp)
      simp only [List.dropLast, List.getLastD_cons, List.cons_append] at this ⊢
      simpa [List.getLastD_eq_getLast?] using this

/-- C11: `transform` does not depend on how the input is chunked.  From every
container and list, `transform(a, L)` followed by `transform(b, L)` leaves the
same container and the same list as one `transform(a + b, L)`; the lines pushed
are the pieces of `container + a + b` split on the newline, except the last
piece, in order; the last piece is the new container, and it contains no
newline.  The lines pushed are pinned down without reference to `split`: they
are appended to `L`, none of them contains a newline, and joined with the new
container by newlines they give back `container + a + b`.  On the container
`ab` and the input `c\nd\n\nef`, in one chunk or cut after `d`, the lines
pushed are `abc`, `d` and the empty line, and `ef` stays in the container. -/
theorem c11_transform_chunking (t : LineBreakTransformer) (a b : String)
    (linesList : List String) :
    (t.transform a linesList).1.transform b (t.transform a linesList).2 =
        t.transform (a ++ b) linesList ∧
      (t.transform (a ++ b) linesList).2 =
        linesList ++ (split '\n' (t.container ++ a ++ b)).dropLast ∧
      (split '\n' (t.container ++ a ++ b)).getLast? =
        some (t.transform (a ++ b) linesList).1.container ∧
      '\n' ∉ (t.transform (a ++ b) linesList).1.container.data ∧
      '\n' ∉ (t.transform a linesList).1.container.data ∧
      (∃ pushed, (t.transform (a ++ b) linesList).2 = linesList ++ pushed ∧
        (∀ line ∈ pushed, '\n' ∉ line.data) ∧
        joinLines (pushed ++ [(t.transform (a ++ b) linesList).1.container]) =
          t.container ++ a ++ b) ∧
      LineBreakTransformer.transform { container := "ab" } "c\nd\n\nef" ["x"] =
        ({ container := "ef" }, ["x", "abc", "d", ""]) ∧
      (LineBreakTransformer.transform { container := "ab" } "c\nd" ["x"]).1.transform "\n\nef"
          (LineBreakTransformer.transform { container := "ab" } "c\nd" ["x"]).2 =
        ({ container := "ef" }, ["x", "abc", "d", ""]) := by
  refine ⟨?_, ?_, ?_, ?_, ?_, ?_, by decide, by decide⟩
  · rw [transform_eq t a, transform_eq t (a ++ b), transform_eq]
    simp only [String.data_append]
    rw [← List.append_assoc, splitChars_append '\n' (t.container.data ++ a.data) b.data]
    have hne := splitChars_ne_nil '\n'
      ((splitChars '\n' (t.container.data ++ a.data)).getLastD [] ++ b.data)
    rw [List.dropLast_append_of_ne_nil _ hne, getLastD_append_of_ne_nil _ _ hne]
    simp only [List.map_append, List.append_assoc]
  · rw [transform_eq]
    unfold split
    simp only [String.data_append, List.map_dropLast, List.append_assoc]
  · rw [transform_eq]
    unfold split
    simp only [String.data_append, List.getLast?_map, getLast?_splitChars, Option.map_some',
      List.append_assoc]
  · rw [transform_eq]
    exact getLastD_splitChars_not_mem '\n' _
  · rw [transform_eq]
    exact getLastD_splitChars_not_mem '\n' _
  · rw [transform_eq]
    refine ⟨_, rfl, ?_, ?_⟩
    · intro line hl
      obtain ⟨piece, hp, rfl⟩ := List.mem_map.mp hl
      exact not_mem_of_mem_splitChars '\n' _ piece (List.mem_of_mem_dropLast hp)
    · unfold joinLines
      have hmap : ∀ l : List (List Char), (l.map String.mk).map String.data = l := by
        intro l
        simp [List.map_map, Function.comp_def]
      have hcat : (List.map String.mk (splitChars '\n'
          (t.container.data ++ (a ++ b).data)).dropLast ++
          [String.mk ((splitChars '\n' (t.container.data ++ (a ++ b).data)).getLastD [])]) =
          List.map String.mk ((splitChars '\n' (t.container.data ++ (a ++ b).data)).dropLast ++
            [(splitChars '\n' (t.container.data ++ (a ++ b).data)).getLastD []]) := by
        simp
      rw [hcat, hmap, dropLast_append_getLastD _ (splitChars_ne_nil _ _), joinChars_splitChars]
      simp [String.ext_iff, String.data_append, List.append_assoc]

/-! ## C12: `Workflow.saveFile` -/

namespace Workflow

theorem flow_pure_run {α : Type} (a : α) (s : WorkflowState) :
    (pure a : Flow α) s = (Except.ok a, s) := rfl

theorem flow_bind_eq {α β : Type} (m : Flow α) (f : α → Flow β) :
    (m >>= f) = Flow.bind m f := rfl

/-- `saveFile` with fuel left: it resolves the path, then either restores the
filename and returns false, or stores the path, calls the write callback and
returns true. -/
theorem saveFile_run (w : Desk) (fuel : Nat) (path : PathValue) (s : WorkflowState) :
    saveFile w (fuel + 1) path s =
      match resolvedPath w fuel path s with
      | (Except.error e, s1) => (Except.error e, s1)
      | (Except.ok p, s1) =>
        if p = PathValue.null then
          (Except.ok false, { s1 with currentFilename := s.currentFilename })
        else
          (match awaited (w.writeText s1.writes.length (writeArgumentFor p s.currentFilename)) with
            | Except.ok _ => Except.ok true
            | Except.error e => Except.error e,
            { s1 with currentFilename := p,
                      writes := s1.writes ++ [writeArgumentFor p s.currentFilename] }) := by
  rw [saveFile]
  cases path with
  | undefined =>
    by_cases hcf : s.currentFilename = PathValue.null
    · rcases hsa : saveAs w fuel s with ⟨e | chosen, s1⟩
      · simp [flow_bind_eq, Flow.bind, flow_pure_run, getCurrentFilename, resolvedPath, hcf, hsa]
      · cases chosen <;>
          simp [flow_bind_eq, Flow.bind, flow_pure_run, getCurrentFilename, resolvedPath, hcf, hsa,
            PathValue.ofOption, setCurrentFilename, _writeText, writeArgumentFor]
        generalize awaited (w.writeText s1.writes.length WriteArgument.zero) = r
        cases r <;> rfl
    · simp [flow_bind_eq, Flow.bind, flow_pure_run, getCurrentFilename, resolvedPath, hcf,
        setCurrentFilename, _writeText, writeArgumentFor]
      generalize awaited (w.writeText s.writes.length WriteArgument.null) = r
      cases r <;> rfl
  | null =>
    simp [flow_bind_eq, Flow.bind, flow_pure_run, getCurrentFilename, resolvedPath,
      setCurrentFilename]
  | name p =>
    simp [flow_bind_eq, Flow.bind, flow_pure_run, getCurrentFilename, resolvedPath,
      setCurrentFilename, _writeText, writeArgumentFor]
    generalize awaited (w.writeText s.writes.length
      (if PathValue.name p = s.currentFilename then WriteArgument.null
        else WriteArgument.zero)) = r
    cases r <;> rfl

theorem flow_bind_apply {α β : Type} (m : Flow α) (f : α → Flow β) (s : WorkflowState) :
    Flow.bind m f s =
      match m s with
      | (Except.ok a, s1) => f a s1
      | (Except.error e, s1) => (Except.error e, s1) := rfl

theorem bind_some_ne_null {m : Flow Bool} {c : String} {s s1 : WorkflowState}
    (h : Flow.bind m (fun _ => (pure (some c) : Flow (Option String))) s =
      (Except.ok none, s1)) : False := by
  simp only [Flow.bind] at h
  rcases hm : m s with ⟨e | b, s2⟩
  · rw [hm] at h
    simp at h
  · rw [hm] at h
    simp [flow_pure_run] at h

/-- When `saveAs` returns `null` it has neither called the write callback nor
changed the current filename. -/
theorem saveAs_null (w : Desk) (fuel : Nat) (s s1 : WorkflowState)
    (h : saveAs w fuel s = (Except.ok none, s1)) :
    s1.writes = s.writes ∧ s1.currentFilename = s.currentFilename := by
  cases fuel with
  | zero => simp [saveAs, outOfFuel] at h
  | succ k =>
    rw [saveAs] at h
    simp only [flow_bind_eq, Flow.bind, openFileDialog, getCurrentFilename, showBusy,
      fileExists, windowConfirm, flow_pure_run] at h
    rcases hd : w.openFileDialog s.dialogs with e | (_ | chosen)
    · simp [hd, awaited] at h
    · simp [hd, awaited, flow_pure_run] at h
      subst h
      exact ⟨rfl, rfl⟩
    · simp only [hd, awaited] at h
      by_cases hl : looseNotEqual (PathValue.name chosen) s.currentFilename = true
      · rcases hfe : w.fileExists s.existsChecks.length chosen with e | (_ | _)
        · simp [flow_bind_apply, getCurrentFilename, fileExists, hl, hfe, awaited] at h
        · simp only [flow_bind_apply, getCurrentFilename, fileExists, hl, hfe, awaited,
            if_true] at h
          exact (bind_some_ne_null h).elim
        · cases hc : w.confirm s.confirms.length ("Overwrite existing file '" ++ chosen ++ "'?")
          · simp [flow_bind_apply, getCurrentFilename, fileExists, hl, hfe, awaited,
              windowConfirm, hc, flow_pure_run] at h
            subst h
            exact ⟨rfl, rfl⟩
          · simp only [flow_bind_apply, getCurrentFilename, fileExists, hl, hfe, awaited,
              windowConfirm, hc, if_true] at h
            exact (bind_some_ne_null h).elim
      · simp only [flow_bind_apply, getCurrentFilename, hl, if_false, flow_pure_run] at h
        exact (bind_some_ne_null h).elim

theorem awaited_ne_outOfFuel {α : Type} (r : Except JSError α) :
    awaited r ≠ Except.error FlowError.outOfFuel := by
  cases r <;> simp [awaited]

/-- With fuel for one call, `saveFile` on a given string does not run out of
fuel. -/
theorem saveFile_name_fuel (w : Desk) (k : Nat) (c : String) (s : WorkflowState) :
    (saveFile w (k + 1) (PathValue.name c) s).1 ≠ Except.error FlowError.outOfFuel := by
  rw [saveFile_run]
  simp only [resolvedPath]
  rw [if_neg (by simp)]
  simp only []
  rcases hw : awaited (w.writeText s.writes.length
    (writeArgumentFor (PathValue.name c) s.currentFilename)) with e | u
  · have := awaited_ne_outOfFuel (w.writeText s.writes.length
      (writeArgumentFor (PathValue.name c) s.currentFilename))
    rw [hw] at this
    simpa using this
  · simp

theorem bind_some_fuel {m : Flow Bool} {c : String} {s : WorkflowState}
    (h : (m s).1 ≠ Except.error FlowError.outOfFuel) :
    (Flow.bind m (fun _ => (pure (some c) : Flow (Option String))) s).1 ≠
      Except.error FlowError.outOfFuel := by
  rw [flow_bind_apply]
  rcases hm : m s with ⟨e | b, s2⟩
  · rw [hm] at h
    simpa using h
  · simp [flow_pure_run]

/-- With fuel for two calls, `saveAs` does not run out of fuel. -/
theorem saveAs_fuel (w : Desk) (k : Nat) (s : WorkflowState) :
    (saveAs w (k + 2) s).1 ≠ Except.error FlowError.outOfFuel := by
  rw [saveAs]
  simp only [flow_bind_eq]
  rcases hd : w.openFileDialog s.dialogs with e | (_ | chosen)
  · simp [flow_bind_apply, openFileDialog, showBusy, hd, awaited]
  · simp [flow_bind_apply, openFileDialog, showBusy, hd, awaited, flow_pure_run]
  · by_cases hl : looseNotEqual (PathValue.name chosen) s.currentFilename = true
    · rcases hfe : w.fileExists s.existsChecks.length chosen with e | (_ | _)
      · simp [flow_bind_apply, openFileDialog, showBusy, getCurrentFilename, fileExists, hl, hfe, awaited, hd]
      · simp only [flow_bind_apply, openFileDialog, showBusy, getCurrentFilename, fileExists, hl, hfe, awaited, hd,
          if_true]
        exact bind_some_fuel (saveFile_name_fuel w k chosen _)
      · cases hc : w.confirm s.confirms.length ("Overwrite existing file '" ++ chosen ++ "'?")
        · simp [flow_bind_apply, openFileDialog, showBusy, getCurrentFilename, fileExists, hl, hfe, awaited,
            windowConfirm, hc, flow_pure_run, hd]
        · simp only [flow_bind_apply, openFileDialog, showBusy, getCurrentFilename, fileExists, hl, hfe, awaited,
            windowConfirm, hc, if_true, hd]
          exact bind_some_fuel (saveFile_name_fuel w k chosen _)
    · simp only [flow_bind_apply, openFileDialog, showBusy, getCurrentFilename, hl, if_false, flow_pure_run, hd, awaited]
      exact bind_some_fuel (saveFile_name_fuel w k chosen _)

/-- The resolved path is `null` in exactly two cases. -/
theorem resolvedPath_null_iff (w : Desk) (fuel : Nat) (path : PathValue) (s s1 : WorkflowState)
    (p : PathValue) (hres : resolvedPath w fuel path s = (Except.ok p, s1)) :
    p = PathValue.null ↔
      (path = PathValue.null ∨
        (path = PathValue.undefined ∧ s.currentFilename = PathValue.null ∧
          saveAs w fuel s = (Except.ok none, s1))) := by
  cases path with
  | undefined =>
    by_cases hcf : s.currentFilename = PathValue.null
    · rcases hsa : saveAs w fuel s with ⟨e | chosen, s2⟩
      · simp [resolvedPath, hcf, hsa] at hres
      · simp only [resolvedPath, hcf, hsa, if_true] at hres
        obtain ⟨h1, h2⟩ := Prod.mk.inj hres
        have h1 := Except.ok.inj h1
        subst h1 h2
        cases chosen <;> simp [PathValue.ofOption, hcf]
    · simp only [resolvedPath, hcf, if_false] at hres
      obtain ⟨h1, h2⟩ := Prod.mk.inj hres
      have h1 := Except.ok.inj h1
      subst h1 h2
      simp [hcf]
  | null =>
    simp only [resolvedPath] at hres
    obtain ⟨h1, h2⟩ := Prod.mk.inj hres
    have h1 := Except.ok.inj h1
    subst h1
    simp
  | name c =>
    simp only [resolvedPath] at hres
    obtain ⟨h1, h2⟩ := Prod.mk.inj hres
    have h1 := Except.ok.inj h1
    subst h1
    simp

/-- When the resolved path is `null`, resolving it has not called the write
callback. -/
theorem resolvedPath_null_writes (w : Desk) (fuel : Nat) (path : PathValue)
    (s s1 : WorkflowState)
    (hres : resolvedPath w fuel path s = (Except.ok PathValue.null, s1)) :
    s1.writes = s.writes := by
  rcases (resolvedPath_null_iff w fuel path s s1 _ hres).mp rfl with h | ⟨_, _, h⟩
  · subst h
    simp only [resolvedPath] at hres
    obtain ⟨_, h2⟩ := Prod.mk.inj hres
    rw [← h2]
  · exact (saveAs_null w fuel s s1 h).1

/-- With fuel for three calls, `saveFile` does not run out of fuel. -/
theorem saveFile_fuel (w : Desk) (n : Nat) (path : PathValue) (s : WorkflowState) :
    (saveFile w (n + 3) path s).1 ≠ Except.error FlowError.outOfFuel := by
  rw [saveFile_run]
  rcases hres : resolvedPath w (n + 2) path s with ⟨e | p, s1⟩
  · simp only []
    intro he
    have he2 : e = FlowError.outOfFuel := Except.error.inj he
    subst he2
    cases path with
    | undefined =>
      by_cases hcf : s.currentFilename = PathValue.null
      · rcases hsa : saveAs w (n + 2) s with ⟨e2 | chosen, s2⟩
        · have hf := saveAs_fuel w n s
          rw [hsa] at hf
          simp only [resolvedPath, hcf, hsa, if_true] at hres
          obtain ⟨h1, _⟩ := Prod.mk.inj hres
          have h1 := Except.error.inj h1
          subst h1
          exact hf rfl
        · simp [resolvedPath, hcf, hsa] at hres
      · simp [resolvedPath, hcf] at hres
    | null => simp [resolvedPath] at hres
    | name c => simp [resolvedPath] at hres
  · simp only []
    by_cases hp : p = PathValue.null
    · rw [if_pos hp]
      simp
    · rw [if_neg hp]
      simp only []
      rcases hw : awaited (w.writeText s1.writes.length
        (writeArgumentFor p s.currentFilename)) with e | u
      · have := awaited_ne_outOfFuel (w.writeText s1.writes.length
          (writeArgumentFor p s.currentFilename))
        rw [hw] at this
        simpa using this
      · simp

/-- C12: let `p` be the resolved path of `saveFile(path)` (`path` when given,
else the current filename when not `null`, else what `saveAs` returns).
`p` is `null` exactly when `path` is `null`, or `path` is `undefined`, the
current filename is `null` and `saveAs` returns `null`.  `saveFile` returns
false exactly when `p` is `null`; then the current filename is the one held
at entry and the write callback has not been called.  Otherwise, when the
write callback completes, `saveFile` returns true, the current filename is
`p`, and the last call of the write callback is the one of `saveFile`, with
`0` when `p` differs from the filename held at entry and `null` when it is
the same.  With fuel for three calls the model never runs out of fuel. -/
theorem c12_saveFile (w : Desk) (n : Nat) (path : PathValue) (s s1 : WorkflowState)
    (p : PathValue) (hres : resolvedPath w (n + 2) path s = (Except.ok p, s1)) :
    (p = PathValue.null ↔
      (path = PathValue.null ∨
        (path = PathValue.undefined ∧ s.currentFilename = PathValue.null ∧
          saveAs w (n + 2) s = (Except.ok none, s1)))) ∧
    ((saveFile w (n + 3) path s).1 = Except.ok false ↔ p = PathValue.null) ∧
    (p = PathValue.null →
      (saveFile w (n + 3) path s).2.currentFilename = s.currentFilename ∧
      (saveFile w (n + 3) path s).2.writes = s.writes) ∧
    (p ≠ PathValue.null →
      w.writeText s1.writes.length (writeArgumentFor p s.currentFilename) = Except.ok () →
      (saveFile w (n + 3) path s).1 = Except.ok true ∧
      (saveFile w (n + 3) path s).2.currentFilename = p ∧
      (saveFile w (n + 3) path s).2.writes =
        s1.writes ++ [if p = s.currentFilename then WriteArgument.null else WriteArgument.zero]) ∧
    (saveFile w (n + 3) path s).1 ≠ Except.error FlowError.outOfFuel := by
  refine ⟨resolvedPath_null_iff w (n + 2) path s s1 p hres, ?_, ?_, ?_, saveFile_fuel w n path s⟩
  · rw [saveFile_run, hres]
    simp only []
    by_cases hp : p = PathValue.null
    · simp [hp]
    · rw [if_neg hp]
      simp only [hp, iff_false]
      rcases awaited (w.writeText s1.writes.length (writeArgumentFor p s.currentFilename))
        with e | u <;> simp
  · intro hp
    subst hp
    have hwr := resolvedPath_null_writes w (n + 2) path s s1 hres
    rw [saveFile_run, hres]
    exact ⟨by simp, by simpa using hwr⟩
  · intro hp hw
    rw [saveFile_run, hres]
    simp only []
    rw [if_neg hp, hw]
    refine ⟨rfl, rfl, ?_⟩
    simp [writeArgumentFor]

/-- C12 (witness): `saveFile()` on a new workflow whose save dialog proposes
an existing file that the user agrees to overwrite: the resolved path is the
chosen file, `saveFile` returns true and its own call of the write callback
has the argument `0`. -/
theorem c12_saveFile_witness :
    resolvedPath overwritingDesk 2 PathValue.undefined WorkflowState.initial =
        (Except.ok (PathValue.name "/new.py"), afterSaveAs) ∧
      (saveFile overwritingDesk 3 PathValue.undefined WorkflowState.initial).1 = Except.ok true ∧
      (saveFile overwritingDesk 3 PathValue.undefined WorkflowState.initial).2.currentFilename =
        PathValue.name "/new.py" ∧
      (saveFile overwritingDesk 3 PathValue.undefined WorkflowState.initial).2.writes =
        afterSaveAs.writes ++
          [if PathValue.name "/new.py" = WorkflowState.initial.currentFilename then
            WriteArgument.null else WriteArgument.zero] :=
  ⟨rfl, (c12_saveFile overwritingDesk 0 PathValue.undefined WorkflowState.initial afterSaveAs
    (PathValue.name "/new.py") rfl).2.2.2.1 (by decide) rfl⟩

end Workflow

end WebEditor
